import Mathlib

/-!
# Verification of the Story_Assistant workflow orchestration engine

Shallow embedding of the two LangGraph workflows of the repository:

* `src/workflows/chapter_continuation.py` (`ChapterContinuationWorkflow`), and
* `src/workflows/story_generation.py` (`StoryGenerationWorkflow`).

Capability providers (the agents) are opaque: `base_agent.process_request`
catches every exception and returns an `AgentResponse` with a `success`
flag, so each provider call is modelled as reading the next element of a
role-specific outcome stream (an oracle).  Workflow state is modelled as a
record, each LangGraph node as a state transformer, and each conditional
edge by its routing function, exactly as in the source.  Quality scores are
Python floats compared against literals such as 0.7; they are modelled as
rationals.

Fields of the Python state that no router or handler ever reads (task ids,
timestamps, the `quality_passed` flag written onto a segment dict and
never read, the payloads of context/plan/world/visual results) are either
dropped or reduced to a success flag; every field that any routing or
bookkeeping decision reads is carried faithfully.
-/

set_option autoImplicit false

namespace StoryAssistant

/-- Outcome of one capability-provider call: `AgentResponse.success` with a
role-specific payload, or a failure carrying the error message. -/
inductive Res (α : Type) where
  | ok (val : α) : Res α
  | fail (msg : String) : Res α
  deriving DecidableEq, Repr

/-- Boolean success test for a provider outcome. -/
def Res.isOk {α : Type} : Res α → Bool
  | .ok _ => true
  | .fail _ => false

/-- Python's `len(s.split())`: number of maximal nonempty whitespace-free
chunks of a string. -/
def countWords (s : String) : ℕ :=
  ((s.split Char.isWhitespace).filter (fun t => t ≠ "")).length

/-! ## Chapter continuation workflow (`chapter_continuation.py`) -/

/-- One generated narrative segment, as produced by `_generate_segment`:
the narrative agent's result with `segment_number` stamped on. -/
structure Segment where
  segmentNumber : ℕ
  content : String
  wordCount : ℕ
  deriving DecidableEq, Repr

/-- One quality-assurance result, as stored by `_check_segment_quality`:
the QA agent's result with `segment_number` stamped on; the routing reads
`quality_metrics.overall_quality_score`. -/
structure QualityCheck where
  segmentNumber : ℕ
  overallScore : ℚ
  deriving DecidableEq, Repr

/-- The `ChapterContinuationState` TypedDict (fields read by handlers or
routers).  `imagesEnabled` models `story_context.image_settings["enabled"]`,
and the optional agent results `context_analysis` / `continuation_plan` /
`continuation_context` are reduced to presence flags. -/
structure ContState where
  previousContent : String
  continuationMode : String
  targetSegments : ℕ
  imagesEnabled : Bool
  contextAnalysis : Bool
  continuationPlan : Bool
  narrativeSegments : List Segment
  qualityChecks : List QualityCheck
  worldUpdates : List ℕ
  visualGenerations : List ℕ
  currentSegment : ℕ
  completedSegments : List Segment
  currentStep : String
  shouldContinue : Bool
  chapterComplete : Bool
  finalChapterContent : Option String
  finalWordCount : ℕ
  continuationContext : Bool
  errors : List String
  warnings : List String
  deriving DecidableEq, Repr

/-- Initial state built by `execute_continuation_workflow`. -/
def initContState (prev mode : String) (target : ℕ) (images : Bool) : ContState where
  previousContent := prev
  continuationMode := mode
  targetSegments := target
  imagesEnabled := images
  contextAnalysis := false
  continuationPlan := false
  narrativeSegments := []
  qualityChecks := []
  worldUpdates := []
  visualGenerations := []
  currentSegment := 0
  completedSegments := []
  currentStep := "analyze_continuation_context"
  shouldContinue := true
  chapterComplete := false
  finalChapterContent := none
  finalWordCount := 0
  continuationContext := false
  errors := []
  warnings := []

/-- Nodes of the continuation graph; `done` is the compiled graph's `END`. -/
inductive CNode where
  | analyze
  | plan
  | generate
  | checkQuality
  | updateWorld
  | genVisuals
  | evaluate
  | finalize
  | handleError
  | done
  deriving DecidableEq, Repr

/-- Role-specific outcome streams for one continuation execution.  The
continuation-context agent serves both `_analyze_continuation_context` and
the final call inside `_finalize_chapter`, hence a single stream. -/
structure COracles where
  contextOracle : ℕ → Res Unit
  plannerOracle : ℕ → Res Unit
  narrativeOracle : ℕ → Res (String × ℕ)
  qaOracle : ℕ → Res ℚ
  worldOracle : ℕ → Res Unit
  visualOracle : ℕ → Res Unit

/-- Per-role call counters (next unread index of each oracle stream). -/
structure CCtr where
  ctxCalls : ℕ
  planCalls : ℕ
  genCalls : ℕ
  qaCalls : ℕ
  worldCalls : ℕ
  visCalls : ℕ
  deriving DecidableEq, Repr

def CCtr.init : CCtr := ⟨0, 0, 0, 0, 0, 0⟩

/-- A configuration of the compiled continuation graph: the node about to
execute plus the current state and oracle positions. -/
structure CConfig where
  node : CNode
  st : ContState
  ctr : CCtr
  deriving DecidableEq, Repr

/-- `_evaluate_segment_quality`: `overall_score >= 0.7`. -/
def evaluateSegmentQuality (q : QualityCheck) : Bool :=
  decide (mkRat 7 10 ≤ q.overallScore)

/-- The regeneration counter computed inside `_quality_routing`: how many
recorded quality checks carry `segment_number == current_segment + 1`. -/
def regenerationCount (s : ContState) : ℕ :=
  (s.qualityChecks.filter (fun q => q.segmentNumber = s.currentSegment + 1)).length

/-- `_quality_routing`. -/
def qualityRouting (s : ContState) : String :=
  match s.qualityChecks.getLast? with
  | none => "error"
  | some latest =>
      if !(evaluateSegmentQuality latest) then
        if regenerationCount s < 2 then "regenerate" else "continue"
      else "update_world"

/-- Conditional-edge map attached to `check_segment_quality`. -/
def qualityTarget (route : String) : CNode :=
  if route = "regenerate" then .generate
  else if route = "update_world" then .updateWorld
  else if route = "continue" then .evaluate
  else .handleError

/-- `_world_update_routing`. -/
def worldUpdateRouting (s : ContState) : String :=
  if s.imagesEnabled then "generate_visuals" else "evaluate"

/-- `_should_continue_generation`. -/
def shouldContinueGeneration (s : ContState) : Bool :=
  if s.targetSegments ≤ s.currentSegment then false
  else if 3 < s.errors.length then false
  else if s.continuationMode = "user_guided" then false
  else true

/-- `_continuation_routing`. -/
def continuationRouting (s : ContState) : String :=
  if s.shouldContinue then "continue_segment" else "finalize"

/-- `_error_routing`. -/
def errorRouting (s : ContState) : String :=
  if 5 < s.errors.length then "end"
  else if !s.completedSegments.isEmpty then "finalize"
  else "retry"

/-- `_analyze_continuation_context` (one continuation-context call). -/
def analyzeStep (r : Res Unit) (s : ContState) : ContState :=
  match r with
  | .ok _ => { s with contextAnalysis := true, currentStep := "plan_continuation" }
  | .fail msg =>
      { s with errors := s.errors ++ ["Context analysis failed: " ++ msg]
               shouldContinue := false }

/-- `_plan_continuation` (one creative-director call). -/
def planStep (r : Res Unit) (s : ContState) : ContState :=
  match r with
  | .ok _ => { s with continuationPlan := true, currentStep := "generate_segment" }
  | .fail msg =>
      { s with errors := s.errors ++ ["Continuation planning failed: " ++ msg]
               shouldContinue := false }

/-- `_generate_segment` (one narrative-intelligence call): on success the
result is stamped with `segment_number = current_segment + 1` and appended
to `narrative_segments`. -/
def generateStep (r : Res (String × ℕ)) (s : ContState) : ContState :=
  match r with
  | .ok val =>
      { s with narrativeSegments :=
                 s.narrativeSegments ++ [⟨s.currentSegment + 1, val.1, val.2⟩]
               currentStep := "check_segment_quality" }
  | .fail msg =>
      { s with errors := s.errors ++ ["Segment generation failed: " ++ msg] }

/-- The non-early-return part of `_check_segment_quality` (one QA call);
the guard `narrative_segments == []` is handled at the graph step. -/
def checkQualityStep (r : Res ℚ) (s : ContState) : ContState :=
  match r with
  | .ok score =>
      { s with qualityChecks := s.qualityChecks ++ [⟨s.currentSegment + 1, score⟩]
               currentStep := "update_world_context" }
  | .fail _ =>
      { s with warnings := s.warnings ++ ["Quality check failed for segment"]
               currentStep := "evaluate_continuation" }

/-- The non-early-return part of `_update_world_context` (one
world-building call).  A failed response is ignored: nothing is appended
to `errors` or `warnings` (only a raised exception would warn, and
`process_request` never raises). -/
def updateWorldStep (r : Res Unit) (s : ContState) : ContState :=
  match r with
  | .ok _ =>
      { s with worldUpdates := s.worldUpdates ++ [s.currentSegment + 1]
               currentStep := "evaluate_continuation" }
  | .fail _ => { s with currentStep := "evaluate_continuation" }

/-- The non-early-return part of `_generate_segment_visuals` (one
visual-storytelling call); a failed response is ignored. -/
def genVisualsStep (r : Res Unit) (s : ContState) : ContState :=
  match r with
  | .ok _ =>
      { s with visualGenerations := s.visualGenerations ++ [s.currentSegment + 1] }
  | .fail _ => s

/-- `_evaluate_continuation`: append the latest narrative segment to
`completed_segments`, increment `current_segment`, recompute
`should_continue`. -/
def evaluateStep (s : ContState) : ContState :=
  let s1 :=
    match s.narrativeSegments.getLast? with
    | some seg => { s with completedSegments := s.completedSegments ++ [seg] }
    | none => s
  let s2 := { s1 with currentSegment := s1.currentSegment + 1 }
  if shouldContinueGeneration s2 then
    { s2 with currentStep := "generate_segment", shouldContinue := true }
  else
    { s2 with currentStep := "finalize_chapter", shouldContinue := false
              chapterComplete := true }

/-- Final chapter text built by `_finalize_chapter`:
`"\n\n".join(filter(None, [previous_content, *segment contents]))`. -/
def finalizeChapterContent (s : ContState) : String :=
  let allContent := s.previousContent :: s.completedSegments.map (fun seg => seg.content)
  String.intercalate "\n\n" (allContent.filter (fun t => t ≠ ""))

/-- Aggregate word count built by `_finalize_chapter`: words of the prior
content (0 when empty) plus the stored `word_count` of every completed
segment. -/
def finalizeChapterWordCount (s : ContState) : ℕ :=
  (if s.previousContent ≠ "" then countWords s.previousContent else 0)
    + (s.completedSegments.map (fun seg => seg.wordCount)).sum

/-- `_finalize_chapter` (one continuation-context call for the continuity
summary, whose failure is ignored). -/
def finalizeStep (r : Res Unit) (s : ContState) : ContState :=
  let s1 :=
    match r with
    | .ok _ => { s with continuationContext := true }
    | .fail _ => s
  { s1 with finalChapterContent := some (finalizeChapterContent s)
            finalWordCount := finalizeChapterWordCount s }

/-- `_handle_continuation_error`: no provider call, no append. -/
def handleErrorStep (s : ContState) : ContState :=
  { s with currentStep := "finalize_chapter", shouldContinue := false }

/-- Node reached from `handle_continuation_error` via `_error_routing`
(`"end"` is the compiled graph's END). -/
def errorTarget (route : String) : CNode :=
  if route = "retry" then .generate
  else if route = "finalize" then .finalize
  else .done

/-- One execution step of the compiled continuation graph: run the handler
of the current node, then follow its (conditional) edge. -/
def cstep (O : COracles) (c : CConfig) : CConfig :=
  match c.node with
  | .analyze =>
      let s := analyzeStep (O.contextOracle c.ctr.ctxCalls) c.st
      ⟨.plan, s, { c.ctr with ctxCalls := c.ctr.ctxCalls + 1 }⟩
  | .plan =>
      let s := planStep (O.plannerOracle c.ctr.planCalls) c.st
      ⟨.generate, s, { c.ctr with planCalls := c.ctr.planCalls + 1 }⟩
  | .generate =>
      let s := generateStep (O.narrativeOracle c.ctr.genCalls) c.st
      ⟨.checkQuality, s, { c.ctr with genCalls := c.ctr.genCalls + 1 }⟩
  | .checkQuality =>
      if c.st.narrativeSegments.isEmpty then
        let s := { c.st with errors := c.st.errors ++ ["No segment to check quality for"] }
        ⟨qualityTarget (qualityRouting s), s, c.ctr⟩
      else
        let s := checkQualityStep (O.qaOracle c.ctr.qaCalls) c.st
        ⟨qualityTarget (qualityRouting s), s, { c.ctr with qaCalls := c.ctr.qaCalls + 1 }⟩
  | .updateWorld =>
      if c.st.narrativeSegments.isEmpty then
        ⟨if c.st.imagesEnabled then .genVisuals else .evaluate, c.st, c.ctr⟩
      else
        let s := updateWorldStep (O.worldOracle c.ctr.worldCalls) c.st
        ⟨if s.imagesEnabled then .genVisuals else .evaluate, s,
         { c.ctr with worldCalls := c.ctr.worldCalls + 1 }⟩
  | .genVisuals =>
      if !c.st.imagesEnabled then ⟨.evaluate, c.st, c.ctr⟩
      else if c.st.narrativeSegments.isEmpty then ⟨.evaluate, c.st, c.ctr⟩
      else
        let s := genVisualsStep (O.visualOracle c.ctr.visCalls) c.st
        ⟨.evaluate, s, { c.ctr with visCalls := c.ctr.visCalls + 1 }⟩
  | .evaluate =>
      let s := evaluateStep c.st
      ⟨if s.shouldContinue then .generate else .finalize, s, c.ctr⟩
  | .finalize =>
      let s := finalizeStep (O.contextOracle c.ctr.ctxCalls) c.st
      ⟨.done, s, { c.ctr with ctxCalls := c.ctr.ctxCalls + 1 }⟩
  | .handleError =>
      let s := handleErrorStep c.st
      ⟨errorTarget (errorRouting s), s, c.ctr⟩
  | .done => c

/-- Initial configuration of one continuation execution. -/
def cinit (prev mode : String) (target : ℕ) (images : Bool) : CConfig :=
  ⟨.analyze, initContState prev mode target images, CCtr.init⟩

/-- The continuation graph after `n` steps. -/
def crun (O : COracles) (c : CConfig) : ℕ → CConfig
  | 0 => c
  | n + 1 => cstep O (crun O c n)

/-- The nodes whose outgoing edge is conditional (a router runs there). -/
def isRoutingNode : CNode → Bool
  | .checkQuality => true
  | .updateWorld => true
  | .evaluate => true
  | .handleError => true
  | _ => false

/-- Number of router decisions made during the first `n` steps. -/
def routerDecisions (O : COracles) (c : CConfig) (n : ℕ) : ℕ :=
  ((List.range n).filter (fun k => isRoutingNode (crun O c k).node)).length

/-- The result dictionary built by `_format_continuation_result`. -/
structure ContResult where
  success : Bool
  content : String
  wordCount : ℕ
  segmentsGenerated : ℕ
  errors : List String
  warnings : List String
  deriving DecidableEq, Repr

/-- `_format_continuation_result`. -/
def formatContinuationResult (s : ContState) : ContResult where
  success := s.errors.length == 0
  content := s.finalChapterContent.getD ""
  wordCount := s.finalWordCount
  segmentsGenerated := s.completedSegments.length
  errors := s.errors
  warnings := s.warnings

/-! ## Single-shot story generation workflow (`story_generation.py`) -/

/-- The dictionary stored in `final_result`.  The happy shape (built by
`_finalize_output_step`) sets `success`, `content`, `word_count`, plus a
`warnings` key copying `errors` and a `partial_success` flag when `errors`
is nonempty (here `warnings`/`degradedSuccess`, with `warnings = []` for
the absent key).  The exhausted shape (built inside `_handle_error_step`)
sets `success = False`, an error message, the `errors` list and the retry
count. -/
structure GenFinal where
  success : Bool
  content : String
  wordCount : ℕ
  warnings : List String
  degradedSuccess : Bool
  errorMessage : Option String
  errorsList : List String
  retryCountAtFailure : ℕ
  deriving DecidableEq, Repr

/-- The `StoryGenerationState` TypedDict (fields read by handlers or
routers).  `orchestrationResult` keeps only whether `"world_building"`
occurs in the plan's `agent_sequence`; `narrativeResult` keeps
`(content, word_count)`; `qualityResult` keeps
`quality_metrics.overall_quality_score`; `worldResult`/`visualResult`
keep `some true` for a provider success and `some false` for the empty
default substituted on failure. -/
structure GenState where
  generationMode : String
  targetWordCount : ℕ
  includeImages : Bool
  orchestrationResult : Option Bool
  contextResult : Bool
  narrativeResult : Option (String × ℕ)
  qualityResult : Option ℚ
  worldResult : Option Bool
  visualResult : Option Bool
  completedSteps : List String
  failedSteps : List String
  retryCount : ℕ
  finalResult : Option GenFinal
  errors : List String
  shouldRetry : Bool
  currentStep : String
  deriving DecidableEq, Repr

/-- Initial state built by `execute_workflow`. -/
def initGenState (mode : String) (twc : ℕ) (images : Bool) : GenState where
  generationMode := mode
  targetWordCount := twc
  includeImages := images
  orchestrationResult := none
  contextResult := false
  narrativeResult := none
  qualityResult := none
  worldResult := none
  visualResult := none
  completedSteps := []
  failedSteps := []
  retryCount := 0
  finalResult := none
  errors := []
  shouldRetry := false
  currentStep := "orchestrate"

/-- Nodes of the single-shot graph.  `done` is the compiled graph's END;
`crashed` models an exception escaping a routing function (the LangGraph
invocation raises and `execute_workflow` returns a bare error dict). -/
inductive GNode where
  | orchestrate
  | analyzeContext
  | enhanceWorld
  | generateNarrative
  | checkQuality
  | generateVisuals
  | finalizeOutput
  | handleError
  | done
  | crashed
  deriving DecidableEq, Repr

/-- Role-specific outcome streams for one single-shot execution.  The
planner outcome carries whether the orchestration plan's `agent_sequence`
contains `"world_building"`. -/
structure GOracles where
  plannerOracle : ℕ → Res Bool
  contextOracle : ℕ → Res Unit
  narrativeOracle : ℕ → Res (String × ℕ)
  qaOracle : ℕ → Res ℚ
  worldOracle : ℕ → Res Unit
  visualOracle : ℕ → Res Unit

/-- Per-role call counters for the single-shot machine. -/
structure GCtr where
  planCalls : ℕ
  ctxCalls : ℕ
  genCalls : ℕ
  qaCalls : ℕ
  worldCalls : ℕ
  visCalls : ℕ
  deriving DecidableEq, Repr

def GCtr.init : GCtr := ⟨0, 0, 0, 0, 0, 0⟩

/-- A configuration of the compiled single-shot graph. -/
structure GConfig where
  node : GNode
  st : GenState
  ctr : GCtr
  deriving DecidableEq, Repr

/-- `_orchestrate_step` (one creative-director call). -/
def orchestrateStep (r : Res Bool) (s : GenState) : GenState :=
  match r with
  | .ok worldPlanned =>
      { s with orchestrationResult := some worldPlanned
               completedSteps := s.completedSteps ++ ["orchestrate"]
               currentStep := "analyze_context" }
  | .fail msg =>
      { s with errors := s.errors ++ ["Orchestration failed: " ++ msg]
               failedSteps := s.failedSteps ++ ["orchestrate"]
               shouldRetry := true }

/-- `_analyze_context_step` (one continuation-context call). -/
def analyzeContextStep (r : Res Unit) (s : GenState) : GenState :=
  match r with
  | .ok _ =>
      { s with contextResult := true
               completedSteps := s.completedSteps ++ ["analyze_context"]
               currentStep := "generate_narrative" }
  | .fail msg =>
      { s with errors := s.errors ++ ["Context analysis failed: " ++ msg]
               failedSteps := s.failedSteps ++ ["analyze_context"] }

/-- `_should_enhance_world`: consults the orchestration plan's
`agent_sequence`.  When `orchestration_result` is `None` the Python
routing function raises `AttributeError` (`None.get`), which escapes the
graph invocation: modelled by `none ↦ crashed`. -/
def shouldEnhanceWorldTarget (s : GenState) : GNode :=
  match s.orchestrationResult with
  | none => .crashed
  | some worldPlanned => if worldPlanned then .enhanceWorld else .generateNarrative

/-- `_enhance_world_step` (one world-building call); a failed response is
replaced by the empty default `{"setting_enhancements": {}}`, with nothing
appended to `errors`. -/
def enhanceWorldStep (r : Res Unit) (s : GenState) : GenState :=
  match r with
  | .ok _ =>
      { s with worldResult := some true
               completedSteps := s.completedSteps ++ ["enhance_world"] }
  | .fail _ => { s with worldResult := some false }

/-- `_generate_narrative_step` (one narrative-intelligence call). -/
def generateNarrativeStep (r : Res (String × ℕ)) (s : GenState) : GenState :=
  match r with
  | .ok val =>
      { s with narrativeResult := some val
               completedSteps := s.completedSteps ++ ["generate_narrative"]
               currentStep := "check_quality" }
  | .fail msg =>
      { s with errors := s.errors ++ ["Narrative generation failed: " ++ msg]
               failedSteps := s.failedSteps ++ ["generate_narrative"]
               shouldRetry := true }

/-- The non-early-return part of `_check_quality_step` (one QA call); the
guard on empty content is handled at the graph step. -/
def checkQualityGenStep (r : Res ℚ) (s : GenState) : GenState :=
  match r with
  | .ok score =>
      { s with qualityResult := some score
               completedSteps := s.completedSteps ++ ["check_quality"] }
  | .fail msg =>
      { s with errors := s.errors ++ ["Quality check failed: " ++ msg]
               failedSteps := s.failedSteps ++ ["check_quality"] }

/-- `_quality_check_routing`: an absent (falsy) `quality_result` routes to
`handle_error`; a score below 0.6 with `retry_count < 2` re-runs the
narrative; otherwise visuals or finalize. -/
def qualityCheckRouting (s : GenState) : String :=
  match s.qualityResult with
  | none => "error"
  | some score =>
      if score < mkRat 3 5 ∧ s.retryCount < 2 then "retry_narrative"
      else if s.includeImages then "generate_visuals"
      else "finalize"

/-- Conditional-edge map attached to `check_quality`. -/
def qualityCheckTarget (route : String) : GNode :=
  if route = "retry_narrative" then .generateNarrative
  else if route = "generate_visuals" then .generateVisuals
  else if route = "finalize" then .finalizeOutput
  else .handleError

/-- `_generate_visuals_step` (one visual-storytelling call); a failed
response is replaced by the empty default, with nothing appended to
`errors`; `_should_generate_visuals` then always routes to finalize. -/
def generateVisualsStep (r : Res Unit) (s : GenState) : GenState :=
  let s1 :=
    match r with
    | .ok _ =>
        { s with visualResult := some true
                 completedSteps := s.completedSteps ++ ["generate_visuals"] }
    | .fail _ => { s with visualResult := some false }
  { s1 with currentStep := "finalize_output" }

/-- `_finalize_output_step`: assemble `final_result` from the collected
step outputs; `success` is unconditionally `True` here, and `errors` are
copied into the result's `warnings` key. -/
def finalizeOutputStep (s : GenState) : GenState :=
  let result : GenFinal :=
    { success := true
      content := (s.narrativeResult.map Prod.fst).getD ""
      wordCount := (s.narrativeResult.map Prod.snd).getD 0
      warnings := s.errors
      degradedSuccess := !s.errors.isEmpty
      errorMessage := none
      errorsList := []
      retryCountAtFailure := 0 }
  { s with finalResult := some result
           completedSteps := s.completedSteps ++ ["finalize_output"] }

/-- `_handle_error_step`: increment `retry_count`; below the cap, reset
`failed_steps` and mark a retry; at or above the cap, store the exhausted
`final_result`.  Note that `should_retry` is left untouched in the
exhausted branch. -/
def handleErrorGenStep (s : GenState) : GenState :=
  let s1 := { s with retryCount := s.retryCount + 1 }
  if s1.retryCount < 3 then
    { s1 with shouldRetry := true, currentStep := "orchestrate", failedSteps := [] }
  else
    let exhausted : GenFinal :=
      { success := false
        content := ""
        wordCount := 0
        warnings := []
        degradedSuccess := false
        errorMessage := some "Workflow failed after multiple retries"
        errorsList := s1.errors
        retryCountAtFailure := s1.retryCount }
    { s1 with finalResult := some exhausted }

/-- `_error_recovery_routing`. -/
def errorRecoveryRouting (s : GenState) : String :=
  if s.shouldRetry then "retry"
  else if s.finalResult.isSome then "end"
  else "error"

/-- Conditional-edge map attached to `handle_error` (`"error"` falls
through to `finalize_output`, `"end"` is END). -/
def errorRecoveryTarget (route : String) : GNode :=
  if route = "retry" then .orchestrate
  else if route = "end" then .done
  else .finalizeOutput

/-- One execution step of the compiled single-shot graph. -/
def gstep (O : GOracles) (c : GConfig) : GConfig :=
  match c.node with
  | .orchestrate =>
      let s := orchestrateStep (O.plannerOracle c.ctr.planCalls) c.st
      ⟨.analyzeContext, s, { c.ctr with planCalls := c.ctr.planCalls + 1 }⟩
  | .analyzeContext =>
      let s := analyzeContextStep (O.contextOracle c.ctr.ctxCalls) c.st
      ⟨shouldEnhanceWorldTarget s, s, { c.ctr with ctxCalls := c.ctr.ctxCalls + 1 }⟩
  | .enhanceWorld =>
      let s := enhanceWorldStep (O.worldOracle c.ctr.worldCalls) c.st
      ⟨.generateNarrative, s, { c.ctr with worldCalls := c.ctr.worldCalls + 1 }⟩
  | .generateNarrative =>
      let s := generateNarrativeStep (O.narrativeOracle c.ctr.genCalls) c.st
      ⟨.checkQuality, s, { c.ctr with genCalls := c.ctr.genCalls + 1 }⟩
  | .checkQuality =>
      if ((c.st.narrativeResult.map Prod.fst).getD "") = "" then
        let s := { c.st with errors := c.st.errors ++ ["No content available for quality check"] }
        ⟨qualityCheckTarget (qualityCheckRouting s), s, c.ctr⟩
      else
        let s := checkQualityGenStep (O.qaOracle c.ctr.qaCalls) c.st
        ⟨qualityCheckTarget (qualityCheckRouting s), s,
         { c.ctr with qaCalls := c.ctr.qaCalls + 1 }⟩
  | .generateVisuals =>
      let s := generateVisualsStep (O.visualOracle c.ctr.visCalls) c.st
      ⟨.finalizeOutput, s, { c.ctr with visCalls := c.ctr.visCalls + 1 }⟩
  | .finalizeOutput =>
      let s := finalizeOutputStep c.st
      ⟨.done, s, c.ctr⟩
  | .handleError =>
      let s := handleErrorGenStep c.st
      ⟨errorRecoveryTarget (errorRecoveryRouting s), s, c.ctr⟩
  | .done => c
  | .crashed => c

/-- Initial configuration of one single-shot execution. -/
def ginit (mode : String) (twc : ℕ) (images : Bool) : GConfig :=
  ⟨.orchestrate, initGenState mode twc images, GCtr.init⟩

/-- The single-shot graph after `n` steps. -/
def grun (O : GOracles) (c : GConfig) : ℕ → GConfig
  | 0 => c
  | n + 1 => gstep O (grun O c n)

/-! ## Concrete oracle instantiations used in closed runs -/

/-- Continuation oracles: every provider succeeds, quality score 0.9. -/
def allOkC : COracles where
  contextOracle := fun _ => .ok ()
  plannerOracle := fun _ => .ok ()
  narrativeOracle := fun n => .ok ("seg" ++ toString n, 10)
  qaOracle := fun _ => .ok (mkRat 9 10)
  worldOracle := fun _ => .ok ()
  visualOracle := fun _ => .ok ()

/-- Continuation oracles: generation succeeds, every QA call fails. -/
def qaFailC : COracles where
  contextOracle := fun _ => .ok ()
  plannerOracle := fun _ => .ok ()
  narrativeOracle := fun n => .ok ("seg" ++ toString n, 10)
  qaOracle := fun _ => .fail "qa provider down"
  worldOracle := fun _ => .ok ()
  visualOracle := fun _ => .ok ()

/-- Continuation oracles: the first generation succeeds, all later ones
fail; quality checks always pass with 0.9. -/
def genFailAfterFirstC : COracles where
  contextOracle := fun _ => .ok ()
  plannerOracle := fun _ => .ok ()
  narrativeOracle := fun n => if n = 0 then .ok ("first", 10) else .fail "narrator down"
  qaOracle := fun _ => .ok (mkRat 9 10)
  worldOracle := fun _ => .ok ()
  visualOracle := fun _ => .ok ()

/-- Continuation oracles: generation succeeds, every quality score is 0.4
(below the 0.7 gate on both the first attempt and the regeneration). -/
def lowQualityC : COracles where
  contextOracle := fun _ => .ok ()
  plannerOracle := fun _ => .ok ()
  narrativeOracle := fun n => .ok ("try" ++ toString n, 10)
  qaOracle := fun _ => .ok (mkRat 2 5)
  worldOracle := fun _ => .ok ()
  visualOracle := fun _ => .ok ()

/-- Continuation oracles: first quality score 0.5, all later ones 0.75
(one regeneration per run, then acceptance). -/
def regenOnceC : COracles where
  contextOracle := fun _ => .ok ()
  plannerOracle := fun _ => .ok ()
  narrativeOracle := fun n => .ok ("g" ++ toString n, 10)
  qaOracle := fun n => if n = 0 then .ok (mkRat 1 2) else .ok (mkRat 3 4)
  worldOracle := fun _ => .ok ()
  visualOracle := fun _ => .ok ()

/-- Single-shot oracles: the narrator fails on every attempt, all other
providers succeed, no world building planned. -/
def narratorFailG : GOracles where
  plannerOracle := fun _ => .ok false
  contextOracle := fun _ => .ok ()
  narrativeOracle := fun _ => .fail "narrator down"
  qaOracle := fun _ => .ok (mkRat 9 10)
  worldOracle := fun _ => .ok ()
  visualOracle := fun _ => .ok ()

/-- Single-shot oracles: world building is planned but its provider
fails; everything else succeeds with quality 0.9. -/
def worldFailG : GOracles where
  plannerOracle := fun _ => .ok true
  contextOracle := fun _ => .ok ()
  narrativeOracle := fun _ => .ok ("story", 100)
  qaOracle := fun _ => .ok (mkRat 9 10)
  worldOracle := fun _ => .fail "world provider down"
  visualOracle := fun _ => .ok ()

/-- Single-shot oracles: every provider succeeds and the quality score is
0.65 — at or above the coded 0.6 gate but below the claimed 0.7 one. -/
def midScoreG : GOracles where
  plannerOracle := fun _ => .ok false
  contextOracle := fun _ => .ok ()
  narrativeOracle := fun _ => .ok ("story", 100)
  qaOracle := fun _ => .ok (mkRat 13 20)
  worldOracle := fun _ => .ok ()
  visualOracle := fun _ => .ok ()

/-! ## Basic lemmas about the two machines -/

theorem cstep_of_done (O : COracles) (c : CConfig) (h : c.node = .done) :
    cstep O c = c := by
  rcases c with ⟨n, st, ctr⟩
  cases n <;> simp_all [cstep]

theorem crun_of_done (O : COracles) (c : CConfig) (k : ℕ)
    (h : (crun O c k).node = .done) :
    ∀ j, crun O c (k + j) = crun O c k := by
  intro j
  induction j with
  | zero => rfl
  | succ j ih =>
      have : crun O c (k + (j + 1)) = cstep O (crun O c (k + j)) := rfl
      rw [this, ih, cstep_of_done O _ h]

/-- Congruence for the finalizer's concatenated text: it reads only
`previous_content` and the completed segments. -/
theorem finalizeChapterContent_congr (s1 s2 : ContState)
    (hp : s1.previousContent = s2.previousContent)
    (hc : s1.completedSegments = s2.completedSegments) :
    finalizeChapterContent s1 = finalizeChapterContent s2 := by
  unfold finalizeChapterContent
  rw [hp, hc]

/-- Congruence for the finalizer's aggregate word count. -/
theorem finalizeChapterWordCount_congr (s1 s2 : ContState)
    (hp : s1.previousContent = s2.previousContent)
    (hc : s1.completedSegments = s2.completedSegments) :
    finalizeChapterWordCount s1 = finalizeChapterWordCount s2 := by
  unfold finalizeChapterWordCount
  rw [hp, hc]

theorem Res.isOk_iff {α : Type} (r : Res α) : r.isOk = true ↔ ∃ v, r = .ok v := by
  cases r <;> simp [Res.isOk]

/-- The caller-supplied parameters are never written by any step. -/
theorem cstep_const (O : COracles) (c : CConfig) :
    (cstep O c).st.targetSegments = c.st.targetSegments ∧
    (cstep O c).st.continuationMode = c.st.continuationMode ∧
    (cstep O c).st.imagesEnabled = c.st.imagesEnabled ∧
    (cstep O c).st.previousContent = c.st.previousContent := by
  rcases c with ⟨n, st, ctr⟩
  cases n
  case analyze => cases h : O.contextOracle ctr.ctxCalls <;> simp [cstep, analyzeStep, h]
  case plan => cases h : O.plannerOracle ctr.planCalls <;> simp [cstep, planStep, h]
  case generate => cases h : O.narrativeOracle ctr.genCalls <;> simp [cstep, generateStep, h]
  case checkQuality =>
      by_cases he : st.narrativeSegments.isEmpty
      · simp [cstep, he]
      · cases h : O.qaOracle ctr.qaCalls <;> simp [cstep, he, checkQualityStep, h]
  case updateWorld =>
      by_cases he : st.narrativeSegments.isEmpty
      · simp [cstep, he]
      · cases h : O.worldOracle ctr.worldCalls <;> simp [cstep, he, updateWorldStep, h]
  case genVisuals =>
      by_cases hi : st.imagesEnabled
      · by_cases he : st.narrativeSegments.isEmpty
        · simp [cstep, hi, he]
        · cases h : O.visualOracle ctr.visCalls <;> simp [cstep, hi, he, genVisualsStep, h]
      · simp [cstep, hi]
  case evaluate =>
      cases h : st.narrativeSegments.getLast? <;>
        simp [cstep, evaluateStep, h] <;> split <;> simp
  case finalize => cases h : O.contextOracle ctr.ctxCalls <;> simp [cstep, finalizeStep, h]
  case handleError => simp [cstep, handleErrorStep]
  case done => simp [cstep]

/-- The segment counter changes only at `evaluate_continuation`, where it
increases by exactly one. -/
theorem cstep_currentSegment (O : COracles) (c : CConfig) :
    (cstep O c).st.currentSegment =
      c.st.currentSegment + (if c.node = .evaluate then 1 else 0) := by
  rcases c with ⟨n, st, ctr⟩
  cases n
  case analyze => cases h : O.contextOracle ctr.ctxCalls <;> simp [cstep, analyzeStep, h]
  case plan => cases h : O.plannerOracle ctr.planCalls <;> simp [cstep, planStep, h]
  case generate => cases h : O.narrativeOracle ctr.genCalls <;> simp [cstep, generateStep, h]
  case checkQuality =>
      by_cases he : st.narrativeSegments.isEmpty
      · simp [cstep, he]
      · cases h : O.qaOracle ctr.qaCalls <;> simp [cstep, he, checkQualityStep, h]
  case updateWorld =>
      by_cases he : st.narrativeSegments.isEmpty
      · simp [cstep, he]
      · cases h : O.worldOracle ctr.worldCalls <;> simp [cstep, he, updateWorldStep, h]
  case genVisuals =>
      by_cases hi : st.imagesEnabled
      · by_cases he : st.narrativeSegments.isEmpty
        · simp [cstep, hi, he]
        · cases h : O.visualOracle ctr.visCalls <;> simp [cstep, hi, he, genVisualsStep, h]
      · simp [cstep, hi]
  case evaluate =>
      cases h : st.narrativeSegments.getLast? <;>
        simp [cstep, evaluateStep, h] <;> split <;> simp
  case finalize => cases h : O.contextOracle ctr.ctxCalls <;> simp [cstep, finalizeStep, h]
  case handleError => simp [cstep, handleErrorStep]
  case done => simp [cstep]

/-- The errors list is append-only. -/
theorem cstep_errors_extend (O : COracles) (c : CConfig) :
    ∃ t, (cstep O c).st.errors = c.st.errors ++ t := by
  rcases c with ⟨n, st, ctr⟩
  cases n
  case analyze =>
      cases h : O.contextOracle ctr.ctxCalls with
      | ok v => exact ⟨[], by simp [cstep, analyzeStep, h]⟩
      | fail msg =>
          exact ⟨["Context analysis failed: " ++ msg], by simp [cstep, analyzeStep, h]⟩
  case plan =>
      cases h : O.plannerOracle ctr.planCalls with
      | ok v => exact ⟨[], by simp [cstep, planStep, h]⟩
      | fail msg =>
          exact ⟨["Continuation planning failed: " ++ msg], by simp [cstep, planStep, h]⟩
  case generate =>
      cases h : O.narrativeOracle ctr.genCalls with
      | ok v => exact ⟨[], by simp [cstep, generateStep, h]⟩
      | fail msg =>
          exact ⟨["Segment generation failed: " ++ msg], by simp [cstep, generateStep, h]⟩
  case checkQuality =>
      by_cases he : st.narrativeSegments.isEmpty
      · exact ⟨["No segment to check quality for"], by simp [cstep, he]⟩
      · cases h : O.qaOracle ctr.qaCalls with
        | ok v => exact ⟨[], by simp [cstep, he, checkQualityStep, h]⟩
        | fail msg => exact ⟨[], by simp [cstep, he, checkQualityStep, h]⟩
  case updateWorld =>
      by_cases he : st.narrativeSegments.isEmpty
      · exact ⟨[], by simp [cstep, he]⟩
      · cases h : O.worldOracle ctr.worldCalls <;>
          exact ⟨[], by simp [cstep, he, updateWorldStep, h]⟩
  case genVisuals =>
      by_cases hi : st.imagesEnabled
      · by_cases he : st.narrativeSegments.isEmpty
        · exact ⟨[], by simp [cstep, hi, he]⟩
        · cases h : O.visualOracle ctr.visCalls <;>
            exact ⟨[], by simp [cstep, hi, he, genVisualsStep, h]⟩
      · exact ⟨[], by simp [cstep, hi]⟩
  case evaluate =>
      refine ⟨[], ?_⟩
      cases h : st.narrativeSegments.getLast? <;>
        simp [cstep, evaluateStep, h] <;> split <;> simp
  case finalize =>
      cases h : O.contextOracle ctr.ctxCalls <;>
        exact ⟨[], by simp [cstep, finalizeStep, h]⟩
  case handleError => exact ⟨[], by simp [cstep, handleErrorStep]⟩
  case done => exact ⟨[], by simp [cstep]⟩

/-- The quality-check list is append-only. -/
theorem cstep_qualityChecks_extend (O : COracles) (c : CConfig) :
    ∃ t, (cstep O c).st.qualityChecks = c.st.qualityChecks ++ t := by
  rcases c with ⟨n, st, ctr⟩
  cases n
  case analyze =>
      cases h : O.contextOracle ctr.ctxCalls <;>
        exact ⟨[], by simp [cstep, analyzeStep, h]⟩
  case plan =>
      cases h : O.plannerOracle ctr.planCalls <;>
        exact ⟨[], by simp [cstep, planStep, h]⟩
  case generate =>
      cases h : O.narrativeOracle ctr.genCalls <;>
        exact ⟨[], by simp [cstep, generateStep, h]⟩
  case checkQuality =>
      by_cases he : st.narrativeSegments.isEmpty
      · exact ⟨[], by simp [cstep, he]⟩
      · cases h : O.qaOracle ctr.qaCalls with
        | ok v =>
            exact ⟨[⟨st.currentSegment + 1, v⟩], by simp [cstep, he, checkQualityStep, h]⟩
        | fail msg => exact ⟨[], by simp [cstep, he, checkQualityStep, h]⟩
  case updateWorld =>
      by_cases he : st.narrativeSegments.isEmpty
      · exact ⟨[], by simp [cstep, he]⟩
      · cases h : O.worldOracle ctr.worldCalls <;>
          exact ⟨[], by simp [cstep, he, updateWorldStep, h]⟩
  case genVisuals =>
      by_cases hi : st.imagesEnabled
      · by_cases he : st.narrativeSegments.isEmpty
        · exact ⟨[], by simp [cstep, hi, he]⟩
        · cases h : O.visualOracle ctr.visCalls <;>
            exact ⟨[], by simp [cstep, hi, he, genVisualsStep, h]⟩
      · exact ⟨[], by simp [cstep, hi]⟩
  case evaluate =>
      refine ⟨[], ?_⟩
      cases h : st.narrativeSegments.getLast? <;>
        simp [cstep, evaluateStep, h] <;> split <;> simp
  case finalize =>
      cases h : O.contextOracle ctr.ctxCalls <;>
        exact ⟨[], by simp [cstep, finalizeStep, h]⟩
  case handleError => exact ⟨[], by simp [cstep, handleErrorStep]⟩
  case done => exact ⟨[], by simp [cstep]⟩

/-- Case analysis of the quality router composed with its edge map: it
either reports an error (exactly when no quality check is recorded) or
moves to world update, regeneration, or evaluation. -/
theorem qualityNext_cases (s : ContState) :
    (qualityTarget (qualityRouting s) = .handleError ∧ s.qualityChecks = []) ∨
    (s.qualityChecks ≠ [] ∧
       (qualityTarget (qualityRouting s) = .updateWorld ∨
        qualityTarget (qualityRouting s) = .generate ∨
        qualityTarget (qualityRouting s) = .evaluate)) := by
  cases h : s.qualityChecks.getLast? with
  | none =>
      left
      have he : s.qualityChecks = [] := List.getLast?_eq_none_iff.mp h
      have hr : qualityRouting s = "error" := by unfold qualityRouting; rw [h]
      rw [hr]
      exact ⟨by decide, he⟩
  | some q =>
      right
      have hne : s.qualityChecks ≠ [] := by
        intro he; rw [he] at h; simp at h
      refine ⟨hne, ?_⟩
      by_cases hq : evaluateSegmentQuality q
      · have hr : qualityRouting s = "update_world" := by
          unfold qualityRouting; rw [h]; simp [hq]
        rw [hr]; left; decide
      · by_cases hc : regenerationCount s < 2
        · have hr : qualityRouting s = "regenerate" := by
            unfold qualityRouting; rw [h]; simp [hq, hc]
          rw [hr]; right; left; decide
        · have hr : qualityRouting s = "continue" := by
            unfold qualityRouting; rw [h]; simp [hq, hc]
          rw [hr]; right; right; decide

/-- Case analysis of the error router composed with its edge map. -/
theorem errorNext_cases (s : ContState) :
    (5 < s.errors.length ∧ errorTarget (errorRouting s) = .done) ∨
    (¬ 5 < s.errors.length ∧ s.completedSegments ≠ [] ∧
       errorTarget (errorRouting s) = .finalize) ∨
    (¬ 5 < s.errors.length ∧ s.completedSegments = [] ∧
       errorTarget (errorRouting s) = .generate) := by
  by_cases hb : 5 < s.errors.length
  · left
    have hr : errorRouting s = "end" := by unfold errorRouting; simp [hb]
    exact ⟨hb, by rw [hr]; decide⟩
  · by_cases hcs : s.completedSegments.isEmpty
    · right; right
      have hr : errorRouting s = "retry" := by unfold errorRouting; simp [hb, hcs]
      exact ⟨hb, List.isEmpty_iff.mp hcs, by rw [hr]; decide⟩
    · right; left
      have hr : errorRouting s = "finalize" := by unfold errorRouting; simp [hb, hcs]
      refine ⟨hb, by simpa [List.isEmpty_iff] using hcs, by rw [hr]; decide⟩

/-- Unfolding of `_should_continue_generation`. -/
theorem shouldContinueGeneration_eq_true (s : ContState) :
    shouldContinueGeneration s = true ↔
      s.currentSegment < s.targetSegments ∧ s.errors.length ≤ 3 ∧
      s.continuationMode ≠ "user_guided" := by
  unfold shouldContinueGeneration
  by_cases h1 : s.targetSegments ≤ s.currentSegment
  · simp only [h1, if_true]
    constructor
    · intro hf; exact absurd hf (by simp)
    · intro hp; omega
  · by_cases h2 : 3 < s.errors.length
    · simp only [h1, if_false, h2, if_true]
      constructor
      · intro hf; exact absurd hf (by simp)
      · intro hp; omega
    · by_cases h3 : s.continuationMode = "user_guided"
      · simp [h1, h2, h3]
      · simp [h1, h2, h3]
        omega

/-! Evaluation lemmas exposing one `cstep` per node. -/

theorem cstep_analyze (O : COracles) (st : ContState) (ctr : CCtr) :
    cstep O ⟨.analyze, st, ctr⟩ =
      ⟨.plan, analyzeStep (O.contextOracle ctr.ctxCalls) st,
       { ctr with ctxCalls := ctr.ctxCalls + 1 }⟩ := rfl

theorem cstep_plan (O : COracles) (st : ContState) (ctr : CCtr) :
    cstep O ⟨.plan, st, ctr⟩ =
      ⟨.generate, planStep (O.plannerOracle ctr.planCalls) st,
       { ctr with planCalls := ctr.planCalls + 1 }⟩ := rfl

theorem cstep_generate (O : COracles) (st : ContState) (ctr : CCtr) :
    cstep O ⟨.generate, st, ctr⟩ =
      ⟨.checkQuality, generateStep (O.narrativeOracle ctr.genCalls) st,
       { ctr with genCalls := ctr.genCalls + 1 }⟩ := rfl

theorem cstep_checkQuality_empty (O : COracles) (st : ContState) (ctr : CCtr)
    (he : st.narrativeSegments.isEmpty = true) :
    cstep O ⟨.checkQuality, st, ctr⟩ =
      ⟨qualityTarget (qualityRouting
          { st with errors := st.errors ++ ["No segment to check quality for"] }),
       { st with errors := st.errors ++ ["No segment to check quality for"] }, ctr⟩ := by
  simp [cstep, he]

theorem cstep_checkQuality_cons (O : COracles) (st : ContState) (ctr : CCtr)
    (he : st.narrativeSegments.isEmpty = false) :
    cstep O ⟨.checkQuality, st, ctr⟩ =
      ⟨qualityTarget (qualityRouting (checkQualityStep (O.qaOracle ctr.qaCalls) st)),
       checkQualityStep (O.qaOracle ctr.qaCalls) st,
       { ctr with qaCalls := ctr.qaCalls + 1 }⟩ := by
  simp [cstep, he]

theorem cstep_updateWorld_empty (O : COracles) (st : ContState) (ctr : CCtr)
    (he : st.narrativeSegments.isEmpty = true) :
    cstep O ⟨.updateWorld, st, ctr⟩ =
      ⟨if st.imagesEnabled then .genVisuals else .evaluate, st, ctr⟩ := by
  simp [cstep, he]

theorem cstep_updateWorld_cons (O : COracles) (st : ContState) (ctr : CCtr)
    (he : st.narrativeSegments.isEmpty = false) :
    cstep O ⟨.updateWorld, st, ctr⟩ =
      ⟨if st.imagesEnabled then .genVisuals else .evaluate,
       updateWorldStep (O.worldOracle ctr.worldCalls) st,
       { ctr with worldCalls := ctr.worldCalls + 1 }⟩ := by
  have himg : (updateWorldStep (O.worldOracle ctr.worldCalls) st).imagesEnabled =
      st.imagesEnabled := by
    cases h : O.worldOracle ctr.worldCalls <;> simp [updateWorldStep, h]
  simp [cstep, he, himg]

theorem cstep_genVisuals_off (O : COracles) (st : ContState) (ctr : CCtr)
    (hi : st.imagesEnabled = false) :
    cstep O ⟨.genVisuals, st, ctr⟩ = ⟨.evaluate, st, ctr⟩ := by
  simp [cstep, hi]

theorem cstep_genVisuals_empty (O : COracles) (st : ContState) (ctr : CCtr)
    (hi : st.imagesEnabled = true) (he : st.narrativeSegments.isEmpty = true) :
    cstep O ⟨.genVisuals, st, ctr⟩ = ⟨.evaluate, st, ctr⟩ := by
  simp [cstep, hi, he]

theorem cstep_genVisuals_on (O : COracles) (st : ContState) (ctr : CCtr)
    (hi : st.imagesEnabled = true) (he : st.narrativeSegments.isEmpty = false) :
    cstep O ⟨.genVisuals, st, ctr⟩ =
      ⟨.evaluate, genVisualsStep (O.visualOracle ctr.visCalls) st,
       { ctr with visCalls := ctr.visCalls + 1 }⟩ := by
  simp [cstep, hi, he]

theorem cstep_evaluate (O : COracles) (st : ContState) (ctr : CCtr) :
    cstep O ⟨.evaluate, st, ctr⟩ =
      ⟨if (evaluateStep st).shouldContinue then .generate else .finalize,
       evaluateStep st, ctr⟩ := rfl

theorem cstep_finalize (O : COracles) (st : ContState) (ctr : CCtr) :
    cstep O ⟨.finalize, st, ctr⟩ =
      ⟨.done, finalizeStep (O.contextOracle ctr.ctxCalls) st,
       { ctr with ctxCalls := ctr.ctxCalls + 1 }⟩ := rfl

theorem cstep_handleError (O : COracles) (st : ContState) (ctr : CCtr) :
    cstep O ⟨.handleError, st, ctr⟩ =
      ⟨errorTarget (errorRouting (handleErrorStep st)), handleErrorStep st, ctr⟩ := rfl

/-- Behaviour of `_evaluate_continuation` when a latest segment exists. -/
theorem evaluateStep_spec (s : ContState) (l : Segment)
    (hl : s.narrativeSegments.getLast? = some l) :
    (evaluateStep s).currentSegment = s.currentSegment + 1 ∧
    (evaluateStep s).completedSegments = s.completedSegments ++ [l] ∧
    (evaluateStep s).qualityChecks = s.qualityChecks ∧
    (evaluateStep s).narrativeSegments = s.narrativeSegments ∧
    (evaluateStep s).errors = s.errors ∧
    (evaluateStep s).warnings = s.warnings ∧
    (evaluateStep s).targetSegments = s.targetSegments ∧
    (evaluateStep s).continuationMode = s.continuationMode ∧
    (evaluateStep s).imagesEnabled = s.imagesEnabled ∧
    (evaluateStep s).previousContent = s.previousContent ∧
    (evaluateStep s).finalChapterContent = s.finalChapterContent ∧
    ((evaluateStep s).shouldContinue = true ↔
       s.currentSegment + 1 < s.targetSegments ∧ s.errors.length ≤ 3 ∧
       s.continuationMode ≠ "user_guided") := by
  unfold evaluateStep
  rw [hl]
  dsimp only
  refine ⟨?_, ?_, ?_, ?_, ?_, ?_, ?_, ?_, ?_, ?_, ?_, ?_⟩
  all_goals try (split <;> rfl)
  split
  case isTrue h =>
      constructor
      · intro _; exact (shouldContinueGeneration_eq_true _).mp h
      · intro _; rfl
  case isFalse h =>
      constructor
      · intro hh; exact absurd hh (by simp)
      · intro hp; exact absurd ((shouldContinueGeneration_eq_true _).mpr hp) h

/-- Nodes that belong to one segment phase of the loop. -/
def phaseNode (n : CNode) : Prop :=
  n = .generate ∨ n = .checkQuality ∨ n = .updateWorld ∨ n = .genVisuals ∨ n = .evaluate

/-- Nodes reachable only after at least one recorded quality check. -/
def postCheckNode (n : CNode) : Prop :=
  n = .updateWorld ∨ n = .genVisuals ∨ n = .evaluate

/-- Structural invariant of the continuation machine, maintained by every
step for every sequence of provider outcomes. -/
structure InvW (c : CConfig) : Prop where
  csLen : c.st.currentSegment = c.st.completedSegments.length
  qcNar : c.st.qualityChecks ≠ [] → c.st.narrativeSegments ≠ []
  early : (c.node = .analyze ∨ c.node = .plan) → c.st.currentSegment = 0
  phaseLt : phaseNode c.node → c.st.currentSegment < max c.st.targetSegments 1
  postQC : postCheckNode c.node → c.st.qualityChecks ≠ []
  finalDone : c.st.finalChapterContent.isSome → c.node = .done
  csLe : c.st.currentSegment ≤ max c.st.targetSegments 1

theorem invW_init (prev mode : String) (target : ℕ) (images : Bool) :
    InvW (cinit prev mode target images) := by
  refine ⟨rfl, ?_, ?_, ?_, ?_, ?_, ?_⟩ <;>
    simp [cinit, initContState, phaseNode, postCheckNode]

/-! Constructors for `InvW` at each node, from facts about the state. -/

theorem invW_mk_plan (st' : ContState) (ctr' : CCtr)
    (l1 : st'.currentSegment = st'.completedSegments.length)
    (l2 : st'.qualityChecks ≠ [] → st'.narrativeSegments ≠ [])
    (l3 : st'.currentSegment = 0)
    (l6 : st'.finalChapterContent.isSome = true → False) :
    InvW ⟨.plan, st', ctr'⟩ := by
  refine ⟨l1, l2, fun _ => l3, ?_, ?_, fun hf => (l6 hf).elim, ?_⟩
  · intro hp; simp [phaseNode] at hp
  · intro hp; simp [postCheckNode] at hp
  · rw [l3]; exact Nat.zero_le _

theorem invW_mk_generate (st' : ContState) (ctr' : CCtr)
    (l1 : st'.currentSegment = st'.completedSegments.length)
    (l2 : st'.qualityChecks ≠ [] → st'.narrativeSegments ≠ [])
    (l4 : st'.currentSegment < max st'.targetSegments 1)
    (l6 : st'.finalChapterContent.isSome = true → False) :
    InvW ⟨.generate, st', ctr'⟩ := by
  refine ⟨l1, l2, ?_, fun _ => l4, ?_, fun hf => (l6 hf).elim, le_of_lt l4⟩
  · intro hp; simp at hp
  · intro hp; simp [postCheckNode] at hp

theorem invW_mk_checkQuality (st' : ContState) (ctr' : CCtr)
    (l1 : st'.currentSegment = st'.completedSegments.length)
    (l2 : st'.qualityChecks ≠ [] → st'.narrativeSegments ≠ [])
    (l4 : st'.currentSegment < max st'.targetSegments 1)
    (l6 : st'.finalChapterContent.isSome = true → False) :
    InvW ⟨.checkQuality, st', ctr'⟩ := by
  refine ⟨l1, l2, ?_, fun _ => l4, ?_, fun hf => (l6 hf).elim, le_of_lt l4⟩
  · intro hp; simp at hp
  · intro hp; simp [postCheckNode] at hp

theorem invW_mk_updateWorld (st' : ContState) (ctr' : CCtr)
    (l1 : st'.currentSegment = st'.completedSegments.length)
    (l2 : st'.qualityChecks ≠ [] → st'.narrativeSegments ≠ [])
    (l4 : st'.currentSegment < max st'.targetSegments 1)
    (l5 : st'.qualityChecks ≠ [])
    (l6 : st'.finalChapterContent.isSome = true → False) :
    InvW ⟨.updateWorld, st', ctr'⟩ := by
  refine ⟨l1, l2, ?_, fun _ => l4, fun _ => l5, fun hf => (l6 hf).elim, le_of_lt l4⟩
  intro hp; simp at hp

theorem invW_mk_genVisuals (st' : ContState) (ctr' : CCtr)
    (l1 : st'.currentSegment = st'.completedSegments.length)
    (l2 : st'.qualityChecks ≠ [] → st'.narrativeSegments ≠ [])
    (l4 : st'.currentSegment < max st'.targetSegments 1)
    (l5 : st'.qualityChecks ≠ [])
    (l6 : st'.finalChapterContent.isSome = true → False) :
    InvW ⟨.genVisuals, st', ctr'⟩ := by
  refine ⟨l1, l2, ?_, fun _ => l4, fun _ => l5, fun hf => (l6 hf).elim, le_of_lt l4⟩
  intro hp; simp at hp

theorem invW_mk_evaluate (st' : ContState) (ctr' : CCtr)
    (l1 : st'.currentSegment = st'.completedSegments.length)
    (l2 : st'.qualityChecks ≠ [] → st'.narrativeSegments ≠ [])
    (l4 : st'.currentSegment < max st'.targetSegments 1)
    (l5 : st'.qualityChecks ≠ [])
    (l6 : st'.finalChapterContent.isSome = true → False) :
    InvW ⟨.evaluate, st', ctr'⟩ := by
  refine ⟨l1, l2, ?_, fun _ => l4, fun _ => l5, fun hf => (l6 hf).elim, le_of_lt l4⟩
  intro hp; simp at hp

theorem invW_mk_finalize (st' : ContState) (ctr' : CCtr)
    (l1 : st'.currentSegment = st'.completedSegments.length)
    (l2 : st'.qualityChecks ≠ [] → st'.narrativeSegments ≠ [])
    (l6 : st'.finalChapterContent.isSome = true → False)
    (l7 : st'.currentSegment ≤ max st'.targetSegments 1) :
    InvW ⟨.finalize, st', ctr'⟩ := by
  refine ⟨l1, l2, ?_, ?_, ?_, fun hf => (l6 hf).elim, l7⟩
  · intro hp; simp at hp
  · intro hp; simp [phaseNode] at hp
  · intro hp; simp [postCheckNode] at hp

theorem invW_mk_handleError (st' : ContState) (ctr' : CCtr)
    (l1 : st'.currentSegment = st'.completedSegments.length)
    (l2 : st'.qualityChecks ≠ [] → st'.narrativeSegments ≠ [])
    (l6 : st'.finalChapterContent.isSome = true → False)
    (l7 : st'.currentSegment ≤ max st'.targetSegments 1) :
    InvW ⟨.handleError, st', ctr'⟩ := by
  refine ⟨l1, l2, ?_, ?_, ?_, fun hf => (l6 hf).elim, l7⟩
  · intro hp; simp at hp
  · intro hp; simp [phaseNode] at hp
  · intro hp; simp [postCheckNode] at hp

theorem invW_mk_done (st' : ContState) (ctr' : CCtr)
    (l1 : st'.currentSegment = st'.completedSegments.length)
    (l2 : st'.qualityChecks ≠ [] → st'.narrativeSegments ≠ [])
    (l7 : st'.currentSegment ≤ max st'.targetSegments 1) :
    InvW ⟨.done, st', ctr'⟩ := by
  refine ⟨l1, l2, ?_, ?_, ?_, fun _ => rfl, l7⟩
  · intro hp; simp at hp
  · intro hp; simp [phaseNode] at hp
  · intro hp; simp [postCheckNode] at hp

/-- The state reached after `check_segment_quality` satisfies the
invariant at whatever node the quality router selects. -/
theorem invW_qualityNext (s' : ContState) (ctr' : CCtr)
    (l1 : s'.currentSegment = s'.completedSegments.length)
    (l2 : s'.qualityChecks ≠ [] → s'.narrativeSegments ≠ [])
    (l4 : s'.currentSegment < max s'.targetSegments 1)
    (l6 : s'.finalChapterContent.isSome = true → False) :
    InvW ⟨qualityTarget (qualityRouting s'), s', ctr'⟩ := by
  rcases qualityNext_cases s' with ⟨hn, _⟩ | ⟨hq, hn | hn | hn⟩ <;> rw [hn]
  · exact invW_mk_handleError s' ctr' l1 l2 l6 (le_of_lt l4)
  · exact invW_mk_updateWorld s' ctr' l1 l2 l4 hq l6
  · exact invW_mk_generate s' ctr' l1 l2 l4 l6
  · exact invW_mk_evaluate s' ctr' l1 l2 l4 hq l6

/-- The structural invariant is preserved by every step, for every
sequence of provider outcomes. -/
theorem invW_cstep (O : COracles) (c : CConfig) (h : InvW c) : InvW (cstep O c) := by
  obtain ⟨h1, h2, h3, h4, h5, h6, h7⟩ := h
  rcases c with ⟨n, st, ctr⟩
  simp only at h1 h2 h3 h4 h5 h6 h7
  cases n
  case analyze =>
      rw [cstep_analyze]
      have hcs : st.currentSegment = 0 := h3 (Or.inl rfl)
      cases hr : O.contextOracle ctr.ctxCalls <;>
        exact invW_mk_plan _ _ h1 h2 hcs (fun hf => by simpa using h6 hf)
  case plan =>
      rw [cstep_plan]
      have hcs : st.currentSegment = 0 := h3 (Or.inr rfl)
      have hlt : st.currentSegment < max st.targetSegments 1 := by
        rw [hcs]; exact Nat.lt_of_lt_of_le Nat.zero_lt_one (Nat.le_max_right _ _)
      cases hr : O.plannerOracle ctr.planCalls <;>
        exact invW_mk_generate _ _ h1 h2 hlt (fun hf => by simpa using h6 hf)
  case generate =>
      rw [cstep_generate]
      have hlt : st.currentSegment < max st.targetSegments 1 := h4 (Or.inl rfl)
      cases hr : O.narrativeOracle ctr.genCalls with
      | ok v =>
          exact invW_mk_checkQuality _ _ h1 (fun _ => by simp [generateStep]) hlt
            (fun hf => by simpa using h6 hf)
      | fail msg =>
          exact invW_mk_checkQuality _ _ h1 h2 hlt (fun hf => by simpa using h6 hf)
  case checkQuality =>
      have hlt : st.currentSegment < max st.targetSegments 1 := h4 (Or.inr (Or.inl rfl))
      cases he : st.narrativeSegments.isEmpty with
      | true =>
          rw [cstep_checkQuality_empty O st ctr he]
          exact invW_qualityNext _ _ h1 h2 hlt (fun hf => by simpa using h6 hf)
      | false =>
          rw [cstep_checkQuality_cons O st ctr he]
          have hnar : st.narrativeSegments ≠ [] := by
            intro hh; rw [hh] at he; simp at he
          cases hr : O.qaOracle ctr.qaCalls with
          | ok v =>
              exact invW_qualityNext _ _ h1 (fun _ => hnar) hlt
                (fun hf => by simpa using h6 hf)
          | fail msg =>
              exact invW_qualityNext _ _ h1 h2 hlt (fun hf => by simpa using h6 hf)
  case updateWorld =>
      have hlt : st.currentSegment < max st.targetSegments 1 :=
        h4 (Or.inr (Or.inr (Or.inl rfl)))
      have hq5 : st.qualityChecks ≠ [] := h5 (Or.inl rfl)
      cases he : st.narrativeSegments.isEmpty with
      | true =>
          rw [cstep_updateWorld_empty O st ctr he]
          split
          · exact invW_mk_genVisuals _ _ h1 h2 hlt hq5 (fun hf => by simpa using h6 hf)
          · exact invW_mk_evaluate _ _ h1 h2 hlt hq5 (fun hf => by simpa using h6 hf)
      | false =>
          rw [cstep_updateWorld_cons O st ctr he]
          cases hr : O.worldOracle ctr.worldCalls <;> split <;>
            first
              | exact invW_mk_genVisuals _ _ h1 h2 hlt hq5 (fun hf => by simpa using h6 hf)
              | exact invW_mk_evaluate _ _ h1 h2 hlt hq5 (fun hf => by simpa using h6 hf)
  case genVisuals =>
      have hlt : st.currentSegment < max st.targetSegments 1 :=
        h4 (Or.inr (Or.inr (Or.inr (Or.inl rfl))))
      have hq5 : st.qualityChecks ≠ [] := h5 (Or.inr (Or.inl rfl))
      cases hi : st.imagesEnabled with
      | false =>
          rw [cstep_genVisuals_off O st ctr hi]
          exact invW_mk_evaluate _ _ h1 h2 hlt hq5 (fun hf => by simpa using h6 hf)
      | true =>
          cases he : st.narrativeSegments.isEmpty with
          | true =>
              rw [cstep_genVisuals_empty O st ctr hi he]
              exact invW_mk_evaluate _ _ h1 h2 hlt hq5 (fun hf => by simpa using h6 hf)
          | false =>
              rw [cstep_genVisuals_on O st ctr hi he]
              cases hr : O.visualOracle ctr.visCalls <;>
                exact invW_mk_evaluate _ _ h1 h2 hlt hq5 (fun hf => by simpa using h6 hf)
  case evaluate =>
      have hq5 : st.qualityChecks ≠ [] := h5 (Or.inr (Or.inr rfl))
      have hnar : st.narrativeSegments ≠ [] := h2 hq5
      obtain ⟨l, hl⟩ := Option.isSome_iff_exists.mp (List.getLast?_isSome.mpr hnar)
      obtain ⟨e1, e2, e3, e4, e5, e6, e7, e8, e9, e10, e11, e12⟩ :=
        evaluateStep_spec st l hl
      have hlt : st.currentSegment < max st.targetSegments 1 :=
        h4 (Or.inr (Or.inr (Or.inr (Or.inr rfl))))
      rw [cstep_evaluate]
      split
      case isTrue hsc =>
          have hp := e12.mp hsc
          refine invW_mk_generate _ _ ?_ ?_ ?_ ?_
          · rw [e1, e2, h1]; simp
          · rw [e3, e4]; exact h2
          · rw [e1, e7]; exact lt_of_lt_of_le hp.1 (le_max_left _ _)
          · intro hf; rw [e11] at hf; simpa using h6 hf
      case isFalse hsc =>
          refine invW_mk_finalize _ _ ?_ ?_ ?_ ?_
          · rw [e1, e2, h1]; simp
          · rw [e3, e4]; exact h2
          · intro hf; rw [e11] at hf; simpa using h6 hf
          · rw [e1, e7]; omega
  case finalize =>
      rw [cstep_finalize]
      cases hr : O.contextOracle ctr.ctxCalls <;>
        exact invW_mk_done _ _ h1 h2 h7
  case handleError =>
      rw [cstep_handleError]
      rcases errorNext_cases (handleErrorStep st) with
        ⟨_, hn⟩ | ⟨_, _, hn⟩ | ⟨_, hemp, hn⟩ <;> rw [hn]
      · exact invW_mk_done _ _ h1 h2 h7
      · exact invW_mk_finalize _ _ h1 h2 (fun hf => by simpa using h6 hf) h7
      · have hemp' : st.completedSegments = [] := hemp
        have hlt : st.currentSegment < max st.targetSegments 1 := by
          rw [h1, hemp']
          exact Nat.lt_of_lt_of_le Nat.zero_lt_one (Nat.le_max_right _ _)
        exact invW_mk_generate _ _ h1 h2 hlt (fun hf => by simpa using h6 hf)
  case done =>
      rw [cstep_of_done O _ rfl]
      exact ⟨h1, h2, h3, h4, h5, h6, h7⟩

/-- The structural invariant holds along every run. -/
theorem invW_crun (O : COracles) (prev mode : String) (target : ℕ) (images : Bool)
    (k : ℕ) : InvW (crun O (cinit prev mode target images) k) := by
  induction k with
  | zero => exact invW_init prev mode target images
  | succ k ih => exact invW_cstep O _ ih

/-- The completed-segments count grows by exactly one at each (reachable)
`evaluate_continuation` execution and is untouched elsewhere. -/
theorem cstep_completed_length (O : COracles) (c : CConfig) (h : InvW c) :
    (cstep O c).st.completedSegments.length =
      c.st.completedSegments.length + (if c.node = .evaluate then 1 else 0) := by
  obtain ⟨h1, h2, h3, h4, h5, h6, h7⟩ := h
  rcases c with ⟨n, st, ctr⟩
  simp only at h1 h2 h3 h4 h5 h6 h7
  cases n
  case analyze => cases hr : O.contextOracle ctr.ctxCalls <;> simp [cstep, analyzeStep, hr]
  case plan => cases hr : O.plannerOracle ctr.planCalls <;> simp [cstep, planStep, hr]
  case generate =>
      cases hr : O.narrativeOracle ctr.genCalls <;> simp [cstep, generateStep, hr]
  case checkQuality =>
      cases he : st.narrativeSegments.isEmpty with
      | true => simp [cstep_checkQuality_empty O st ctr he]
      | false =>
          cases hr : O.qaOracle ctr.qaCalls <;>
            simp [cstep_checkQuality_cons O st ctr he, checkQualityStep, hr]
  case updateWorld =>
      cases he : st.narrativeSegments.isEmpty with
      | true => simp [cstep_updateWorld_empty O st ctr he]
      | false =>
          cases hr : O.worldOracle ctr.worldCalls <;>
            simp [cstep_updateWorld_cons O st ctr he, updateWorldStep, hr]
  case genVisuals =>
      cases hi : st.imagesEnabled with
      | false => rw [cstep_genVisuals_off O st ctr hi]; simp
      | true =>
          cases he : st.narrativeSegments.isEmpty with
          | true => rw [cstep_genVisuals_empty O st ctr hi he]; simp
          | false =>
              rw [cstep_genVisuals_on O st ctr hi he]
              cases hr : O.visualOracle ctr.visCalls <;> simp [genVisualsStep, hr]
  case evaluate =>
      have hnar : st.narrativeSegments ≠ [] := h2 (h5 (Or.inr (Or.inr rfl)))
      obtain ⟨l, hl⟩ := Option.isSome_iff_exists.mp (List.getLast?_isSome.mpr hnar)
      obtain ⟨_, e2, _⟩ := evaluateStep_spec st l hl
      rw [cstep_evaluate]
      simp only [if_pos rfl]
      simp [e2]
  case finalize =>
      cases hr : O.contextOracle ctr.ctxCalls <;> simp [cstep, finalizeStep, hr]
  case handleError => simp [cstep, handleErrorStep]
  case done => simp [cstep]

/-- The caller parameters are constant along every run. -/
theorem crun_const (O : COracles) (c : CConfig) (k : ℕ) :
    (crun O c k).st.targetSegments = c.st.targetSegments ∧
    (crun O c k).st.continuationMode = c.st.continuationMode ∧
    (crun O c k).st.imagesEnabled = c.st.imagesEnabled ∧
    (crun O c k).st.previousContent = c.st.previousContent := by
  induction k with
  | zero => exact ⟨rfl, rfl, rfl, rfl⟩
  | succ k ih =>
      obtain ⟨i1, i2, i3, i4⟩ := ih
      obtain ⟨s1, s2, s3, s4⟩ := cstep_const O (crun O c k)
      exact ⟨s1.trans i1, s2.trans i2, s3.trans i3, s4.trans i4⟩

/-! ## C10 — success flag of the continuation result -/

/-- C10 (confirmed): the result built by `_format_continuation_result`
reports `success = true` exactly when the accumulated `errors` list is
empty; the errors list and the segment count are passed through
unchanged, so any single error entry forces `success = false` even when
content was assembled. -/
theorem continuation_result_success_iff_no_errors (s : ContState) :
    ((formatContinuationResult s).success = true ↔ s.errors = []) ∧
    (formatContinuationResult s).errors = s.errors ∧
    (formatContinuationResult s).segmentsGenerated = s.completedSegments.length ∧
    (formatContinuationResult s).content = s.finalChapterContent.getD "" := by
  refine ⟨?_, rfl, rfl, rfl⟩
  simp [formatContinuationResult, List.length_eq_zero]

/-! ## C7 — determinism of the chapter finalizer -/

/-- C7 (confirmed): executing the `finalize_chapter` node on any two
configurations that agree on `previous_content` and `completed_segments`
produces identical concatenated chapter text and identical aggregate word
counts, independently of the continuity-provider outcome; the text is the
`"\n\n"`-join of the prior content and the completed segment contents in
order (empty pieces dropped), and the word count adds the prior content's
word count to the stored per-segment counts. -/
theorem finalizer_deterministic (O1 O2 : COracles) (c1 c2 : CConfig)
    (h1 : c1.node = .finalize) (h2 : c2.node = .finalize)
    (hp : c1.st.previousContent = c2.st.previousContent)
    (hc : c1.st.completedSegments = c2.st.completedSegments) :
    (cstep O1 c1).st.finalChapterContent = (cstep O2 c2).st.finalChapterContent ∧
    (cstep O1 c1).st.finalWordCount = (cstep O2 c2).st.finalWordCount ∧
    (cstep O1 c1).st.finalChapterContent = some (finalizeChapterContent c1.st) ∧
    (cstep O1 c1).st.finalWordCount = finalizeChapterWordCount c1.st := by
  rcases c1 with ⟨n1, st1, ctr1⟩
  rcases c2 with ⟨n2, st2, ctr2⟩
  simp only at h1 h2 hp hc
  subst h1 h2
  have key : ∀ (r : Res Unit) (s : ContState),
      (finalizeStep r s).finalChapterContent = some (finalizeChapterContent s) ∧
      (finalizeStep r s).finalWordCount = finalizeChapterWordCount s := by
    intro r s
    cases r <;> simp [finalizeStep]
  have k1 := key (O1.contextOracle ctr1.ctxCalls) st1
  have k2 := key (O2.contextOracle ctr2.ctxCalls) st2
  refine ⟨?_, ?_, ?_, ?_⟩
  · show (finalizeStep (O1.contextOracle ctr1.ctxCalls) st1).finalChapterContent =
        (finalizeStep (O2.contextOracle ctr2.ctxCalls) st2).finalChapterContent
    rw [k1.1, k2.1, finalizeChapterContent_congr st1 st2 hp hc]
  · show (finalizeStep (O1.contextOracle ctr1.ctxCalls) st1).finalWordCount =
        (finalizeStep (O2.contextOracle ctr2.ctxCalls) st2).finalWordCount
    rw [k1.2, k2.2, finalizeChapterWordCount_congr st1 st2 hp hc]
  · exact k1.1
  · exact k1.2

/-- A configuration at the `finalize_chapter` node with one completed
segment and some unrelated diagnostic noise. -/
def finCfgA : CConfig :=
  ⟨.finalize,
   { initContState "prev" "seamless" 2 false with
       completedSegments := [⟨1, "alpha", 2⟩], warnings := ["w"] },
   CCtr.init⟩

/-- A second finalize-node configuration agreeing with `finCfgA` only on
the prior content and the completed segments. -/
def finCfgB : CConfig :=
  ⟨.finalize,
   { initContState "prev" "user_guided" 7 true with
       completedSegments := [⟨1, "alpha", 2⟩], errors := ["e"], currentSegment := 4 },
   ⟨5, 3, 2, 2, 1, 0⟩⟩

theorem finalizer_deterministic_witness :
    finCfgA.node = .finalize ∧ finCfgB.node = .finalize ∧
    finCfgA.st.previousContent = finCfgB.st.previousContent ∧
    finCfgA.st.completedSegments = finCfgB.st.completedSegments ∧
    ((cstep allOkC finCfgA).st.finalChapterContent =
        (cstep qaFailC finCfgB).st.finalChapterContent ∧
     (cstep allOkC finCfgA).st.finalWordCount =
        (cstep qaFailC finCfgB).st.finalWordCount ∧
     (cstep allOkC finCfgA).st.finalChapterContent =
        some (finalizeChapterContent finCfgA.st) ∧
     (cstep allOkC finCfgA).st.finalWordCount =
        finalizeChapterWordCount finCfgA.st) :=
  ⟨rfl, rfl, rfl, rfl,
   finalizer_deterministic allOkC qaFailC finCfgA finCfgB rfl rfl rfl rfl⟩

/-! ## C1 — quality-gate routing -/

/-- Number of recorded quality checks stamped with segment number `m`. -/
def checksForSegment (m : ℕ) (s : ContState) : ℕ :=
  (s.qualityChecks.filter (fun q => q.segmentNumber = m)).length

theorem regenerationCount_eq (s : ContState) :
    regenerationCount s = checksForSegment (s.currentSegment + 1) s := rfl

/-- Per-segment check counts never decrease along a step. -/
theorem checksForSegment_cstep_le (O : COracles) (c : CConfig) (m : ℕ) :
    checksForSegment m c.st ≤ checksForSegment m (cstep O c).st := by
  obtain ⟨t, ht⟩ := cstep_qualityChecks_extend O c
  unfold checksForSegment
  rw [ht, List.filter_append, List.length_append]
  exact Nat.le_add_right _ _

/-- Per-segment check counts never decrease along a run. -/
theorem checksForSegment_crun_le (O : COracles) (c : CConfig) (m : ℕ)
    {j k : ℕ} (h : j ≤ k) :
    checksForSegment m (crun O c j).st ≤ checksForSegment m (crun O c k).st := by
  induction k with
  | zero => cases Nat.le_zero.mp h; exact le_rfl
  | succ k ih =>
      rcases Nat.lt_or_ge j (k + 1) with hk | hk
      · exact le_trans (ih (Nat.lt_succ_iff.mp hk)) (checksForSegment_cstep_le O _ m)
      · cases Nat.le_antisymm h hk; exact le_rfl

/-- When the QA provider succeeds, a `check_segment_quality` execution
whose router decides "regenerate" sees zero previously recorded checks
for the current segment and records exactly one. -/
theorem regen_decision (O : COracles) (c : CConfig) (hInv : InvW c)
    (hqa : ∀ n, (O.qaOracle n).isOk = true)
    (hnode : c.node = .checkQuality) (hnext : (cstep O c).node = .generate) :
    checksForSegment (c.st.currentSegment + 1) c.st = 0 ∧
    checksForSegment (c.st.currentSegment + 1) (cstep O c).st = 1 := by
  rcases c with ⟨n, st, ctr⟩
  simp only at hnode
  subst hnode
  cases he : st.narrativeSegments.isEmpty with
  | true =>
      exfalso
      rw [cstep_checkQuality_empty O st ctr he] at hnext
      have hqcs : st.qualityChecks = [] := by
        by_contra hne
        exact (by simpa [List.isEmpty_iff] using he : st.narrativeSegments = [])
          |> absurd (hInv.qcNar hne) ∘ fun a b => b a
      have hroute : qualityRouting
          { st with errors := st.errors ++ ["No segment to check quality for"] } =
          "error" := by
        unfold qualityRouting
        simp [hqcs]
      rw [hroute] at hnext
      simp [qualityTarget] at hnext
  | false =>
      obtain ⟨v, hv⟩ := (Res.isOk_iff _).mp (hqa ctr.qaCalls)
      rw [cstep_checkQuality_cons O st ctr he] at hnext ⊢
      rw [hv] at hnext ⊢
      simp only [checkQualityStep] at hnext ⊢
      have hlast : (st.qualityChecks ++
          [(⟨st.currentSegment + 1, v⟩ : QualityCheck)]).getLast? =
          some ⟨st.currentSegment + 1, v⟩ := List.getLast?_concat _
      by_cases hq : evaluateSegmentQuality ⟨st.currentSegment + 1, v⟩
      · exfalso
        have hroute : qualityRouting
            { st with qualityChecks := st.qualityChecks ++ [⟨st.currentSegment + 1, v⟩],
                      currentStep := "update_world_context" } = "update_world" := by
          unfold qualityRouting
          rw [hlast]
          simp [hq]
        rw [hroute] at hnext
        simp [qualityTarget] at hnext
      · set s' : ContState :=
          { st with qualityChecks := st.qualityChecks ++ [⟨st.currentSegment + 1, v⟩],
                    currentStep := "update_world_context" } with hs'
        by_cases hc : regenerationCount s' < 2
        · have hcnt : checksForSegment (st.currentSegment + 1) s' =
              checksForSegment (st.currentSegment + 1) st + 1 := by
            unfold checksForSegment
            rw [hs']
            simp [List.filter_append]
          have hc' : checksForSegment (st.currentSegment + 1) st + 1 < 2 := by
            rw [regenerationCount_eq] at hc
            rw [← hcnt]
            exact hc
          constructor
          · omega
          · rw [hcnt]; omega
        · exfalso
          have hroute : qualityRouting s' = "continue" := by
            unfold qualityRouting
            rw [hlast]
            simp [hq, hc]
          rw [hroute] at hnext
          simp [qualityTarget] at hnext

/-- Continuation oracles giving a below-threshold first score for each of
the first two segments, then a passing score. -/
def regenTwiceC : COracles where
  contextOracle := fun _ => .ok ()
  plannerOracle := fun _ => .ok ()
  narrativeOracle := fun n => .ok ("g" ++ toString n, 10)
  qaOracle := fun n => .ok (if n = 0 ∨ n = 2 then mkRat 1 2 else mkRat 3 4)
  worldOracle := fun _ => .ok ()
  visualOracle := fun _ => .ok ()

/-- C1 (amended): in the continuation workflow the quality router returns
"regenerate" exactly when the latest recorded quality score is below 0.7
and fewer than two checks are recorded for the current segment; in the
single-shot workflow the router returns "retry_narrative" exactly when
the recorded score is below 0.6 (not 0.7) and the whole-workflow
`retry_count` is below 2; and, provided every QA call succeeds, no
segment index receives a second "regenerate" decision in the continuation
workflow. -/
theorem quality_gate_amended :
    (∀ s : ContState, qualityRouting s = "regenerate" ↔
       ∃ q, s.qualityChecks.getLast? = some q ∧ q.overallScore < mkRat 7 10 ∧
         regenerationCount s < 2) ∧
    (∀ s : GenState, qualityCheckRouting s = "retry_narrative" ↔
       ∃ q, s.qualityResult = some q ∧ q < mkRat 3 5 ∧ s.retryCount < 2) ∧
    (∀ (O : COracles) (prev mode : String) (target : ℕ) (images : Bool),
       (∀ n, (O.qaOracle n).isOk = true) →
       ∀ k1 k2 : ℕ, k1 < k2 →
         (crun O (cinit prev mode target images) k1).node = .checkQuality →
         (crun O (cinit prev mode target images) (k1 + 1)).node = .generate →
         (crun O (cinit prev mode target images) k2).node = .checkQuality →
         (crun O (cinit prev mode target images) (k2 + 1)).node = .generate →
         (crun O (cinit prev mode target images) k1).st.currentSegment ≠
           (crun O (cinit prev mode target images) k2).st.currentSegment) := by
  refine ⟨?_, ?_, ?_⟩
  · intro s
    cases h : s.qualityChecks.getLast? with
    | none =>
        have hroute : qualityRouting s = "error" := by
          unfold qualityRouting; rw [h]
        rw [hroute]
        constructor
        · intro he; exact absurd he (by decide)
        · rintro ⟨q, hq, -, -⟩; cases hq
    | some q =>
        by_cases hq : evaluateSegmentQuality q
        · have hroute : qualityRouting s = "update_world" := by
            unfold qualityRouting; rw [h]; simp [hq]
          rw [hroute]
          constructor
          · intro he; exact absurd he (by decide)
          · rintro ⟨q', hq', hlt, -⟩
            obtain rfl : q = q' := Option.some.inj hq'
            exact absurd hlt (not_lt.mpr (of_decide_eq_true hq))
        · have hqf : evaluateSegmentQuality q = false := by simpa using hq
          have hlt : q.overallScore < mkRat 7 10 :=
            not_le.mp (of_decide_eq_false hqf)
          by_cases hc : regenerationCount s < 2
          · have hroute : qualityRouting s = "regenerate" := by
              unfold qualityRouting; rw [h]; simp [hqf, hc]
            rw [hroute]
            exact ⟨fun _ => ⟨q, rfl, hlt, hc⟩, fun _ => rfl⟩
          · have hroute : qualityRouting s = "continue" := by
              unfold qualityRouting; rw [h]; simp [hqf, hc]
            rw [hroute]
            constructor
            · intro he; exact absurd he (by decide)
            · rintro ⟨q', -, -, hc'⟩; exact absurd hc' hc
  · intro s
    cases h : s.qualityResult with
    | none =>
        have hroute : qualityCheckRouting s = "error" := by
          unfold qualityCheckRouting; rw [h]
        rw [hroute]
        constructor
        · intro he; exact absurd he (by decide)
        · rintro ⟨q, hq, -, -⟩; cases hq
    | some q =>
        by_cases hcond : q < mkRat 3 5 ∧ s.retryCount < 2
        · have hroute : qualityCheckRouting s = "retry_narrative" := by
            unfold qualityCheckRouting; rw [h]; simp [hcond]
          rw [hroute]
          exact ⟨fun _ => ⟨q, rfl, hcond.1, hcond.2⟩, fun _ => rfl⟩
        · have hback : ∀ he : qualityCheckRouting s = "retry_narrative", False := by
            intro he
            unfold qualityCheckRouting at he
            rw [h] at he
            simp only [hcond, if_false] at he
            by_cases hi : s.includeImages
            · simp only [hi, if_true] at he; exact absurd he (by decide)
            · simp only [hi, if_false] at he; exact absurd he (by decide)
          constructor
          · intro he; exact (hback he).elim
          · rintro ⟨q', hq', hlt, hrc⟩
            obtain rfl : q = q' := Option.some.inj hq'
            exact absurd ⟨hlt, hrc⟩ hcond
  · intro O prev mode target images hqa k1 k2 hk h1c h1g h2c h2g heq
    have d1 := regen_decision O _ (invW_crun O prev mode target images k1) hqa h1c h1g
    have d2 := regen_decision O _ (invW_crun O prev mode target images k2) hqa h2c h2g
    rw [heq] at d1
    have hmono := checksForSegment_crun_le O (cinit prev mode target images)
      ((crun O (cinit prev mode target images) k2).st.currentSegment + 1)
      (show k1 + 1 ≤ k2 from hk)
    have h12 : checksForSegment
        ((crun O (cinit prev mode target images) k2).st.currentSegment + 1)
        (crun O (cinit prev mode target images) (k1 + 1)).st = 1 := d1.2
    have h20 := d2.1
    omega

/-- C1 counterexample (original claim): in the single-shot workflow a
quality score of 0.65 — below the claimed 0.7 threshold, with zero
regenerations so far — is routed to "finalize", not to regeneration. -/
theorem quality_gate_claim_refuted :
    (grun midScoreG (ginit "m" 250 false) 3).node = .checkQuality ∧
    (grun midScoreG (ginit "m" 250 false) 4).st.qualityResult = some (mkRat 13 20) ∧
    mkRat 13 20 < mkRat 7 10 ∧
    (grun midScoreG (ginit "m" 250 false) 4).st.retryCount = 0 ∧
    qualityCheckRouting (grun midScoreG (ginit "m" 250 false) 4).st = "finalize" ∧
    (grun midScoreG (ginit "m" 250 false) 4).node = .finalizeOutput := by
  decide

theorem quality_gate_amended_witness :
    (∀ n, ((regenTwiceC.qaOracle n).isOk = true)) ∧ 3 < 9 ∧
    (crun regenTwiceC (cinit "p" "seamless" 2 false) 3).node = .checkQuality ∧
    (crun regenTwiceC (cinit "p" "seamless" 2 false) 4).node = .generate ∧
    (crun regenTwiceC (cinit "p" "seamless" 2 false) 9).node = .checkQuality ∧
    (crun regenTwiceC (cinit "p" "seamless" 2 false) 10).node = .generate ∧
    (crun regenTwiceC (cinit "p" "seamless" 2 false) 3).st.currentSegment ≠
      (crun regenTwiceC (cinit "p" "seamless" 2 false) 9).st.currentSegment :=
  ⟨fun _ => rfl, by decide, by decide, by decide, by decide, by decide,
   quality_gate_amended.2.2 regenTwiceC "p" "seamless" 2 false (fun _ => rfl) 3 9
     (by decide) (by decide) (by decide) (by decide) (by decide)⟩

/-! ## C5 — error routing of the continuation workflow -/

/-- Continuation oracles whose narrator fails on every call. -/
def narFailC : COracles where
  contextOracle := fun _ => .ok ()
  plannerOracle := fun _ => .ok ()
  narrativeOracle := fun _ => .fail "narrator down"
  qaOracle := fun _ => .ok (mkRat 9 10)
  worldOracle := fun _ => .ok ()
  visualOracle := fun _ => .ok ()

/-- One step out of `handle_continuation_error`, by `_error_routing`. -/
theorem errorRouting_spec (O : COracles) (c : CConfig) (h : c.node = .handleError) :
    (5 < c.st.errors.length →
       (cstep O c).node = .done ∧
       (cstep O c).st.finalChapterContent = c.st.finalChapterContent) ∧
    (¬ 5 < c.st.errors.length → c.st.completedSegments ≠ [] →
       (cstep O c).node = .finalize) ∧
    (¬ 5 < c.st.errors.length → c.st.completedSegments = [] →
       (cstep O c).node = .generate) := by
  rcases c with ⟨n, st, ctr⟩
  simp only at h
  subst h
  rw [cstep_handleError]
  rcases errorNext_cases (handleErrorStep st) with
    ⟨hb, hn⟩ | ⟨hb, hc, hn⟩ | ⟨hb, hc, hn⟩
  · exact ⟨fun _ => ⟨hn, rfl⟩, fun hb' _ => absurd hb hb', fun hb' _ => absurd hb hb'⟩
  · exact ⟨fun hb' => absurd hb' hb, fun _ _ => hn, fun _ hc' => absurd (hc' ▸ hc) (by simp)⟩
  · exact ⟨fun hb' => absurd hb' hb, fun _ hc' => absurd hc hc', fun _ _ => hn⟩

/-- C5 (amended): whenever the continuation run reaches the error handler,
the error router (i) terminates the run with no chapter content ever
produced when more than 5 errors have accumulated, (ii) proceeds to
finalization of the partial output when at least one segment was
completed, and (iii) otherwise routes straight back to segment
generation — a retry that consults no retry counter (the continuation
state has none). -/
theorem error_routing_amended (O : COracles) (prev mode : String) (target : ℕ)
    (images : Bool) (k : ℕ)
    (h : (crun O (cinit prev mode target images) k).node = .handleError) :
    (5 < (crun O (cinit prev mode target images) k).st.errors.length →
       (crun O (cinit prev mode target images) (k + 1)).node = .done ∧
       ∀ j, (crun O (cinit prev mode target images) (k + 1 + j)).st.finalChapterContent
              = none) ∧
    (¬ 5 < (crun O (cinit prev mode target images) k).st.errors.length →
       (crun O (cinit prev mode target images) k).st.completedSegments ≠ [] →
       (crun O (cinit prev mode target images) (k + 1)).node = .finalize) ∧
    (¬ 5 < (crun O (cinit prev mode target images) k).st.errors.length →
       (crun O (cinit prev mode target images) k).st.completedSegments = [] →
       (crun O (cinit prev mode target images) (k + 1)).node = .generate) := by
  have hspec := errorRouting_spec O (crun O (cinit prev mode target images) k) h
  refine ⟨fun hb => ⟨(hspec.1 hb).1, ?_⟩, hspec.2.1, hspec.2.2⟩
  have hfin : (crun O (cinit prev mode target images) k).st.finalChapterContent
      = none := by
    rcases hopt : (crun O (cinit prev mode target images) k).st.finalChapterContent
      with _ | v
    · rfl
    · have hd := (invW_crun O prev mode target images k).finalDone (by rw [hopt]; rfl)
      rw [h] at hd
      cases hd
  have hfin1 : (crun O (cinit prev mode target images) (k + 1)).st.finalChapterContent
      = none := ((hspec.1 hb).2).trans hfin
  intro j
  have hdone : (crun O (cinit prev mode target images) (k + 1)).node = .done :=
    (hspec.1 hb).1
  rw [crun_of_done O (cinit prev mode target images) (k + 1) hdone j]
  exact hfin1

/-- C5 counterexample (original claim): the error router grants a 4th
consecutive retry — the continuation workflow has no `retry_count`, so
nothing bounds these retries at 3. -/
theorem error_routing_retry_unbounded :
    ((crun qaFailC (cinit "p" "seamless" 1 false) 4).node = .handleError ∧
     (crun qaFailC (cinit "p" "seamless" 1 false) 5).node = .generate) ∧
    ((crun qaFailC (cinit "p" "seamless" 1 false) 7).node = .handleError ∧
     (crun qaFailC (cinit "p" "seamless" 1 false) 8).node = .generate) ∧
    ((crun qaFailC (cinit "p" "seamless" 1 false) 10).node = .handleError ∧
     (crun qaFailC (cinit "p" "seamless" 1 false) 11).node = .generate) ∧
    ((crun qaFailC (cinit "p" "seamless" 1 false) 13).node = .handleError ∧
     (crun qaFailC (cinit "p" "seamless" 1 false) 14).node = .generate) := by
  decide

theorem error_routing_amended_witness :
    (crun narFailC (cinit "p" "seamless" 1 false) 10).node = .handleError ∧
    5 < (crun narFailC (cinit "p" "seamless" 1 false) 10).st.errors.length ∧
    (crun narFailC (cinit "p" "seamless" 1 false) (10 + 1)).node = .done ∧
    (crun narFailC (cinit "p" "seamless" 1 false) (10 + 1 + 9)).st.finalChapterContent
      = none := by
  have h := (error_routing_amended narFailC "p" "seamless" 1 false 10 (by decide)).1
    (by decide)
  exact ⟨by decide, by decide, h.1, h.2 9⟩

/-! ## C8 — sub-threshold acceptance and warnings -/

/-- C8 (amended): when the latest quality score is below 0.7 and the
single retry is exhausted (two checks recorded for the current segment),
the router accepts the segment and advances to evaluation; and the
continuation workflow appends to `warnings` only when a quality-assurance
call itself fails — never for a sub-threshold acceptance. -/
theorem subthreshold_acceptance_amended :
    (∀ (s : ContState) (q : QualityCheck),
       s.qualityChecks.getLast? = some q → q.overallScore < mkRat 7 10 →
       ¬ regenerationCount s < 2 →
       qualityRouting s = "continue" ∧
       qualityTarget (qualityRouting s) = .evaluate) ∧
    (∀ (O : COracles) (c : CConfig),
       (cstep O c).st.warnings = c.st.warnings ∨
       (c.node = .checkQuality ∧ c.st.narrativeSegments ≠ [] ∧
        (O.qaOracle c.ctr.qaCalls).isOk = false)) := by
  constructor
  · intro s q h hlt hc
    have hqf : evaluateSegmentQuality q = false :=
      decide_eq_false (not_le.mpr hlt)
    have hroute : qualityRouting s = "continue" := by
      unfold qualityRouting
      rw [h]
      simp [hqf, hc]
    exact ⟨hroute, by rw [hroute]; decide⟩
  · intro O c
    rcases c with ⟨n, st, ctr⟩
    cases n
    case analyze =>
        left; cases hr : O.contextOracle ctr.ctxCalls <;> simp [cstep, analyzeStep, hr]
    case plan =>
        left; cases hr : O.plannerOracle ctr.planCalls <;> simp [cstep, planStep, hr]
    case generate =>
        left
        cases hr : O.narrativeOracle ctr.genCalls <;> simp [cstep, generateStep, hr]
    case checkQuality =>
        cases he : st.narrativeSegments.isEmpty with
        | true => left; simp [cstep_checkQuality_empty O st ctr he]
        | false =>
            cases hr : O.qaOracle ctr.qaCalls with
            | ok v =>
                left
                simp [cstep_checkQuality_cons O st ctr he, checkQualityStep, hr]
            | fail msg =>
                right
                refine ⟨rfl, ?_, rfl⟩
                intro hh; rw [hh] at he; simp at he
    case updateWorld =>
        left
        cases he : st.narrativeSegments.isEmpty with
        | true => rw [cstep_updateWorld_empty O st ctr he]
        | false =>
            rw [cstep_updateWorld_cons O st ctr he]
            cases hr : O.worldOracle ctr.worldCalls <;> simp [updateWorldStep, hr]
    case genVisuals =>
        left
        cases hi : st.imagesEnabled with
        | false => rw [cstep_genVisuals_off O st ctr hi]
        | true =>
            cases he : st.narrativeSegments.isEmpty with
            | true => rw [cstep_genVisuals_empty O st ctr hi he]
            | false =>
                rw [cstep_genVisuals_on O st ctr hi he]
                cases hr : O.visualOracle ctr.visCalls <;> simp [genVisualsStep, hr]
    case evaluate =>
        left
        rw [cstep_evaluate]
        cases hl : st.narrativeSegments.getLast? with
        | none => simp [evaluateStep, hl]; split <;> rfl
        | some l => exact (evaluateStep_spec st l hl).2.2.2.2.2.1
    case finalize =>
        left; cases hr : O.contextOracle ctr.ctxCalls <;> simp [cstep, finalizeStep, hr]
    case handleError => left; rfl
    case done => left; rfl

/-- C8 counterexample (original claim): both quality attempts score 0.4;
the segment is accepted and the chapter finalized, but `warnings` stays
empty — no sub-threshold-acceptance entry exists anywhere in the code. -/
theorem subthreshold_acceptance_no_warning :
    (crun lowQualityC (cinit "p" "seamless" 1 false) 8).node = .done ∧
    (crun lowQualityC (cinit "p" "seamless" 1 false) 8).st.qualityChecks =
      [⟨1, mkRat 2 5⟩, ⟨1, mkRat 2 5⟩] ∧
    mkRat 2 5 < mkRat 7 10 ∧
    (crun lowQualityC (cinit "p" "seamless" 1 false) 8).st.completedSegments.length
      = 1 ∧
    (crun lowQualityC (cinit "p" "seamless" 1 false) 8).st.finalChapterContent.isSome
      = true ∧
    (crun lowQualityC (cinit "p" "seamless" 1 false) 8).st.warnings = [] := by
  decide

theorem subthreshold_acceptance_amended_witness :
    (crun lowQualityC (cinit "p" "seamless" 1 false) 6).st.qualityChecks.getLast? =
      some ⟨1, mkRat 2 5⟩ ∧
    mkRat 2 5 < mkRat 7 10 ∧
    ¬ regenerationCount (crun lowQualityC (cinit "p" "seamless" 1 false) 6).st < 2 ∧
    (qualityRouting (crun lowQualityC (cinit "p" "seamless" 1 false) 6).st
        = "continue" ∧
     qualityTarget (qualityRouting
        (crun lowQualityC (cinit "p" "seamless" 1 false) 6).st) = .evaluate) ∧
    ((cstep allOkC (cinit "p" "seamless" 1 false)).st.warnings =
        (cinit "p" "seamless" 1 false).st.warnings ∨
     ((cinit "p" "seamless" 1 false).node = .checkQuality ∧
      (cinit "p" "seamless" 1 false).st.narrativeSegments ≠ [] ∧
      (allOkC.qaOracle (cinit "p" "seamless" 1 false).ctr.qaCalls).isOk = false)) :=
  ⟨by decide, by decide, by decide,
   subthreshold_acceptance_amended.1
     (crun lowQualityC (cinit "p" "seamless" 1 false) 6).st
     ⟨1, mkRat 2 5⟩ (by decide) (by decide) (by decide),
   subthreshold_acceptance_amended.2 allOkC (cinit "p" "seamless" 1 false)⟩

/-! ## C9 — non-fatal degradation of world/visual providers -/

theorem gstep_enhanceWorld (O : GOracles) (st : GenState) (ctr : GCtr) :
    gstep O ⟨.enhanceWorld, st, ctr⟩ =
      ⟨.generateNarrative, enhanceWorldStep (O.worldOracle ctr.worldCalls) st,
       { ctr with worldCalls := ctr.worldCalls + 1 }⟩ := rfl

theorem gstep_generateVisuals (O : GOracles) (st : GenState) (ctr : GCtr) :
    gstep O ⟨.generateVisuals, st, ctr⟩ =
      ⟨.finalizeOutput, generateVisualsStep (O.visualOracle ctr.visCalls) st,
       { ctr with visCalls := ctr.visCalls + 1 }⟩ := rfl

/-- C9 (amended): failures of the world-building and visual-generation
providers are absorbed in both workflows: they never touch `errors` (or
`warnings`, or the retry flag), the step always advances to the next
pipeline node (never to error handling), and the single-shot steps always
leave a usable (possibly empty-default) result in place.  There is no
warnings entry for a provider-level failure. -/
theorem noncritical_failure_amended :
    (∀ (O : COracles) (c : CConfig), c.node = .updateWorld →
       (cstep O c).st.errors = c.st.errors ∧
       (cstep O c).st.warnings = c.st.warnings ∧
       ((cstep O c).node = .genVisuals ∨ (cstep O c).node = .evaluate)) ∧
    (∀ (O : COracles) (c : CConfig), c.node = .genVisuals →
       (cstep O c).st.errors = c.st.errors ∧
       (cstep O c).st.warnings = c.st.warnings ∧
       (cstep O c).node = .evaluate) ∧
    (∀ (O : GOracles) (c : GConfig), c.node = .enhanceWorld →
       (gstep O c).st.errors = c.st.errors ∧
       (gstep O c).st.shouldRetry = c.st.shouldRetry ∧
       (gstep O c).st.worldResult.isSome = true ∧
       (gstep O c).node = .generateNarrative) ∧
    (∀ (O : GOracles) (c : GConfig), c.node = .generateVisuals →
       (gstep O c).st.errors = c.st.errors ∧
       (gstep O c).st.shouldRetry = c.st.shouldRetry ∧
       (gstep O c).st.visualResult.isSome = true ∧
       (gstep O c).node = .finalizeOutput) := by
  refine ⟨?_, ?_, ?_, ?_⟩
  · intro O c h
    rcases c with ⟨n, st, ctr⟩
    simp only at h
    subst h
    cases he : st.narrativeSegments.isEmpty with
    | true =>
        rw [cstep_updateWorld_empty O st ctr he]
        refine ⟨rfl, rfl, ?_⟩
        cases hi : st.imagesEnabled with
        | true => left; simp [hi]
        | false => right; simp [hi]
    | false =>
        rw [cstep_updateWorld_cons O st ctr he]
        cases hr : O.worldOracle ctr.worldCalls with
        | ok v =>
            refine ⟨by simp [updateWorldStep, hr], by simp [updateWorldStep, hr], ?_⟩
            cases hi : st.imagesEnabled with
            | true => left; simp [hi]
            | false => right; simp [hi]
        | fail msg =>
            refine ⟨by simp [updateWorldStep, hr], by simp [updateWorldStep, hr], ?_⟩
            cases hi : st.imagesEnabled with
            | true => left; simp [hi]
            | false => right; simp [hi]
  · intro O c h
    rcases c with ⟨n, st, ctr⟩
    simp only at h
    subst h
    cases hi : st.imagesEnabled with
    | false => rw [cstep_genVisuals_off O st ctr hi]; exact ⟨rfl, rfl, rfl⟩
    | true =>
        cases he : st.narrativeSegments.isEmpty with
        | true => rw [cstep_genVisuals_empty O st ctr hi he]; exact ⟨rfl, rfl, rfl⟩
        | false =>
            rw [cstep_genVisuals_on O st ctr hi he]
            cases hr : O.visualOracle ctr.visCalls <;>
              exact ⟨by simp [genVisualsStep, hr], by simp [genVisualsStep, hr], rfl⟩
  · intro O c h
    rcases c with ⟨n, st, ctr⟩
    simp only at h
    subst h
    rw [gstep_enhanceWorld]
    cases hr : O.worldOracle ctr.worldCalls <;>
      exact ⟨by simp [enhanceWorldStep, hr], by simp [enhanceWorldStep, hr],
             by simp [enhanceWorldStep, hr], rfl⟩
  · intro O c h
    rcases c with ⟨n, st, ctr⟩
    simp only at h
    subst h
    rw [gstep_generateVisuals]
    cases hr : O.visualOracle ctr.visCalls <;>
      exact ⟨by simp [generateVisualsStep, hr], by simp [generateVisualsStep, hr],
             by simp [generateVisualsStep, hr], rfl⟩

/-- C9 counterexample (original claim): the world-building provider fails
(the empty default `worldResult = some false` is substituted), the
workflow still produces a successful `final_result`, but no warnings entry
records the failure: `errors` is empty and the result's `warnings` key is
absent. -/
theorem noncritical_failure_silent :
    (grun worldFailG (ginit "m" 250 false) 6).node = .done ∧
    (grun worldFailG (ginit "m" 250 false) 6).st.worldResult = some false ∧
    (grun worldFailG (ginit "m" 250 false) 6).st.errors = [] ∧
    (grun worldFailG (ginit "m" 250 false) 6).st.finalResult =
      some ⟨true, "story", 100, [], false, none, [], 0⟩ := by
  decide

theorem noncritical_failure_amended_witness :
    (⟨.updateWorld, (cinit "p" "seamless" 1 false).st, CCtr.init⟩ : CConfig).node
      = .updateWorld ∧
    (⟨.enhanceWorld, (ginit "m" 250 false).st, GCtr.init⟩ : GConfig).node
      = .enhanceWorld ∧
    ((cstep allOkC ⟨.updateWorld, (cinit "p" "seamless" 1 false).st, CCtr.init⟩).st.errors
        = (cinit "p" "seamless" 1 false).st.errors ∧
     (cstep allOkC ⟨.updateWorld, (cinit "p" "seamless" 1 false).st, CCtr.init⟩).st.warnings
        = (cinit "p" "seamless" 1 false).st.warnings ∧
     ((cstep allOkC ⟨.updateWorld, (cinit "p" "seamless" 1 false).st, CCtr.init⟩).node
        = .genVisuals ∨
      (cstep allOkC ⟨.updateWorld, (cinit "p" "seamless" 1 false).st, CCtr.init⟩).node
        = .evaluate)) ∧
    ((gstep worldFailG ⟨.enhanceWorld, (ginit "m" 250 false).st, GCtr.init⟩).st.errors
        = (ginit "m" 250 false).st.errors ∧
     (gstep worldFailG ⟨.enhanceWorld, (ginit "m" 250 false).st, GCtr.init⟩).st.shouldRetry
        = (ginit "m" 250 false).st.shouldRetry ∧
     (gstep worldFailG ⟨.enhanceWorld, (ginit "m" 250 false).st, GCtr.init⟩).st.worldResult.isSome
        = true ∧
     (gstep worldFailG ⟨.enhanceWorld, (ginit "m" 250 false).st, GCtr.init⟩).node
        = .generateNarrative) :=
  ⟨rfl, rfl,
   noncritical_failure_amended.1 allOkC
     ⟨.updateWorld, (cinit "p" "seamless" 1 false).st, CCtr.init⟩ rfl,
   noncritical_failure_amended.2.2.1 worldFailG
     ⟨.enhanceWorld, (ginit "m" 250 false).st, GCtr.init⟩ rfl⟩

/-! ## C3 — whole-workflow retry cap of the single-shot workflow -/

/-- C3 (code bug): with the narrator failing on every attempt, the
single-shot workflow reaches `handle_error` for the third time, sets
`retry_count = 3` together with the exhausted `final_result` — the coded
"give up" branch — and then, because `should_retry` is never cleared, the
error router still answers "retry": the workflow restarts a 4th time and
`retry_count` keeps growing past the cap. -/
theorem workflow_retry_cap_overrun :
    (grun narratorFailG (ginit "m" 250 false) 14).node = .handleError ∧
    (grun narratorFailG (ginit "m" 250 false) 14).st.retryCount = 2 ∧
    (grun narratorFailG (ginit "m" 250 false) 15).st.retryCount = 3 ∧
    ((grun narratorFailG (ginit "m" 250 false) 15).st.finalResult.map
        GenFinal.success) = some false ∧
    (grun narratorFailG (ginit "m" 250 false) 15).st.shouldRetry = true ∧
    (grun narratorFailG (ginit "m" 250 false) 15).node = .orchestrate ∧
    (grun narratorFailG (ginit "m" 250 false) 20).st.retryCount = 4 := by
  decide

/-! ## C2 — termination of the continuation segment loop -/

/-- Case analysis of the quality router with its guards exposed. -/
theorem qualityNextGuard_cases (s : ContState) :
    (qualityTarget (qualityRouting s) = .handleError ∧ s.qualityChecks = []) ∨
    (∃ q, s.qualityChecks.getLast? = some q ∧
       ((qualityTarget (qualityRouting s) = .updateWorld ∧
           evaluateSegmentQuality q = true) ∨
        (qualityTarget (qualityRouting s) = .generate ∧
           evaluateSegmentQuality q = false ∧ regenerationCount s < 2) ∨
        (qualityTarget (qualityRouting s) = .evaluate ∧
           evaluateSegmentQuality q = false ∧ ¬ regenerationCount s < 2))) := by
  cases h : s.qualityChecks.getLast? with
  | none =>
      left
      have hr : qualityRouting s = "error" := by unfold qualityRouting; rw [h]
      exact ⟨by rw [hr]; decide, List.getLast?_eq_none_iff.mp h⟩
  | some q =>
      right
      refine ⟨q, rfl, ?_⟩
      by_cases hq : evaluateSegmentQuality q
      · left
        have hr : qualityRouting s = "update_world" := by
          unfold qualityRouting; rw [h]; simp [hq]
        exact ⟨by rw [hr]; decide, hq⟩
      · have hqf : evaluateSegmentQuality q = false := by simpa using hq
        by_cases hc : regenerationCount s < 2
        · right; left
          have hr : qualityRouting s = "regenerate" := by
            unfold qualityRouting; rw [h]; simp [hqf, hc]
          exact ⟨by rw [hr]; decide, hqf, hc⟩
        · right; right
          have hr : qualityRouting s = "continue" := by
            unfold qualityRouting; rw [h]; simp [hqf, hc]
          exact ⟨by rw [hr]; decide, hqf, hc⟩

/-- Position of each node inside one pass of the loop, used as the junior
component of the ranking function. -/
def phaseOff : CNode → ℕ
  | .analyze => 8
  | .plan => 7
  | .handleError => 7
  | .generate => 6
  | .checkQuality => 5
  | .updateWorld => 4
  | .genVisuals => 3
  | .evaluate => 2
  | .finalize => 1
  | .done => 0

/-- State component of the ranking function: remaining segments, remaining
error budget, remaining per-segment quality attempts. -/
def cmeasureSt (s : ContState) : ℕ :=
  32 * (max s.targetSegments 1 - s.currentSegment)
    + 8 * (8 - min s.errors.length 8)
    + 8 * (2 - min (regenerationCount s) 2)

/-- Ranking function for the continuation machine under a reliable QA
provider. -/
def cmeasure (c : CConfig) : ℕ :=
  cmeasureSt c.st + phaseOff c.node

/-- After an evaluation, no recorded check is stamped with the new current
segment's successor. -/
theorem regenerationCount_after_evaluate (s : ContState) (l : Segment)
    (hl : s.narrativeSegments.getLast? = some l)
    (hb : ∀ q ∈ s.qualityChecks, q.segmentNumber ≤ s.currentSegment + 1) :
    regenerationCount (evaluateStep s) = 0 := by
  obtain ⟨e1, _, e3, _⟩ := evaluateStep_spec s l hl
  unfold regenerationCount
  rw [e3, e1, List.length_eq_zero, List.filter_eq_nil_iff]
  intro q hq
  have := hb q hq
  simp only [decide_eq_true_eq]
  omega

/-- Strengthening of `InvW` that holds under a reliable QA provider. -/
structure InvS (c : CConfig) : Prop where
  w : InvW c
  atAnalyze : c.node = .analyze →
    c.st.errors = [] ∧ c.st.qualityChecks = [] ∧ c.st.narrativeSegments = []
  atPlan : c.node = .plan →
    c.st.errors.length ≤ 1 ∧ c.st.qualityChecks = [] ∧ c.st.narrativeSegments = []
  atGenerate : c.node = .generate →
    (c.st.narrativeSegments = [] → c.st.errors.length ≤ 5) ∧
      regenerationCount c.st ≤ 1
  atCheck : c.node = .checkQuality →
    (c.st.narrativeSegments = [] → c.st.errors.length ≤ 6) ∧
      regenerationCount c.st ≤ 1
  atErr : c.node = .handleError →
    c.st.qualityChecks = [] ∧ c.st.narrativeSegments = [] ∧
      c.st.errors.length ≤ 7
  segBound : ∀ q ∈ c.st.qualityChecks, q.segmentNumber ≤ c.st.currentSegment + 1

theorem invS_init (prev mode : String) (target : ℕ) (images : Bool) :
    InvS (cinit prev mode target images) := by
  refine ⟨invW_init prev mode target images, fun _ => ⟨rfl, rfl, rfl⟩,
    ?_, ?_, ?_, ?_, ?_⟩ <;>
    first
      | (intro hh; exact absurd hh (by simp [cinit]))
      | (intro q hq; simp [cinit, initContState] at hq)

/-- Evaluation helper for the ranking function's state component. -/
theorem cmeasureSt_eq (s : ContState) (M cs E R : ℕ)
    (hM : max s.targetSegments 1 = M) (hcs : s.currentSegment = cs)
    (hE : s.errors.length = E) (hR : regenerationCount s = R) :
    cmeasureSt s = 32 * (M - cs) + 8 * (8 - min E 8) + 8 * (2 - min R 2) := by
  unfold cmeasureSt
  rw [hM, hcs, hE, hR]

/-- Under a reliable QA provider, every step preserves the strengthened
invariant and strictly decreases the ranking function until END. -/
theorem invS_cstep (O : COracles) (c : CConfig)
    (hqa : ∀ n, (O.qaOracle n).isOk = true)
    (h : InvS c) (hd : c.node ≠ .done) :
    InvS (cstep O c) ∧ cmeasure (cstep O c) < cmeasure c := by
  obtain ⟨hw, ha, hp, hg, hc, herr, hsb⟩ := h
  have hw' := invW_cstep O c hw
  rcases c with ⟨n, st, ctr⟩
  simp only at ha hp hg hc herr hsb hd
  cases n
  case analyze =>
      obtain ⟨ha1, ha2, ha3⟩ := ha rfl
      rw [cstep_analyze] at hw' ⊢
      cases hr : O.contextOracle ctr.ctxCalls with
      | ok v =>
          rw [hr] at hw'
          refine ⟨⟨hw', fun hh => absurd hh (by simp), ?_,
                   fun hh => absurd hh (by simp), fun hh => absurd hh (by simp),
                   fun hh => absurd hh (by simp), ?_⟩, ?_⟩
          · intro _
            exact ⟨by simp [analyzeStep, ha1], by simpa [analyzeStep] using ha2,
                   by simpa [analyzeStep] using ha3⟩
          · intro q hq
            exact hsb q (by simpa [analyzeStep] using hq)
          · show cmeasureSt (analyzeStep (Res.ok v) st) + phaseOff .plan <
                cmeasureSt st + phaseOff .analyze
            rw [cmeasureSt_eq (analyzeStep (Res.ok v) st) (max st.targetSegments 1)
                  st.currentSegment st.errors.length (regenerationCount st)
                  rfl rfl rfl rfl,
                cmeasureSt_eq st (max st.targetSegments 1) st.currentSegment
                  st.errors.length (regenerationCount st) rfl rfl rfl rfl]
            simp only [phaseOff]
            omega
      | fail msg =>
          rw [hr] at hw'
          refine ⟨⟨hw', fun hh => absurd hh (by simp), ?_,
                   fun hh => absurd hh (by simp), fun hh => absurd hh (by simp),
                   fun hh => absurd hh (by simp), ?_⟩, ?_⟩
          · intro _
            refine ⟨?_, by simpa [analyzeStep] using ha2,
                    by simpa [analyzeStep] using ha3⟩
            show (st.errors ++ ["Context analysis failed: " ++ msg]).length ≤ 1
            rw [ha1]
            simp
          · intro q hq
            exact hsb q (by simpa [analyzeStep] using hq)
          · show cmeasureSt (analyzeStep (Res.fail msg) st) + phaseOff .plan <
                cmeasureSt st + phaseOff .analyze
            rw [cmeasureSt_eq (analyzeStep (Res.fail msg) st) (max st.targetSegments 1)
                  st.currentSegment (st.errors.length + 1) (regenerationCount st)
                  rfl rfl (by simp [analyzeStep]) rfl,
                cmeasureSt_eq st (max st.targetSegments 1) st.currentSegment
                  st.errors.length (regenerationCount st) rfl rfl rfl rfl]
            simp only [phaseOff]
            omega
  case plan =>
      obtain ⟨hp1, hp2, hp3⟩ := hp rfl
      have hreg0 : regenerationCount st = 0 := by
        unfold regenerationCount
        rw [hp2]
        rfl
      rw [cstep_plan] at hw' ⊢
      cases hr : O.plannerOracle ctr.planCalls with
      | ok v =>
          rw [hr] at hw'
          refine ⟨⟨hw', fun hh => absurd hh (by simp), fun hh => absurd hh (by simp),
                   ?_, fun hh => absurd hh (by simp), fun hh => absurd hh (by simp),
                   ?_⟩, ?_⟩
          · intro _
            constructor
            · intro _
              show st.errors.length ≤ 5
              omega
            · show regenerationCount st ≤ 1
              omega
          · intro q hq
            exact hsb q (by simpa [planStep] using hq)
          · show cmeasureSt (planStep (Res.ok v) st) + phaseOff .generate <
                cmeasureSt st + phaseOff .plan
            rw [cmeasureSt_eq (planStep (Res.ok v) st) (max st.targetSegments 1)
                  st.currentSegment st.errors.length (regenerationCount st)
                  rfl rfl rfl rfl,
                cmeasureSt_eq st (max st.targetSegments 1) st.currentSegment
                  st.errors.length (regenerationCount st) rfl rfl rfl rfl]
            simp only [phaseOff]
            omega
      | fail msg =>
          rw [hr] at hw'
          refine ⟨⟨hw', fun hh => absurd hh (by simp), fun hh => absurd hh (by simp),
                   ?_, fun hh => absurd hh (by simp), fun hh => absurd hh (by simp),
                   ?_⟩, ?_⟩
          · intro _
            constructor
            · intro _
              show (st.errors ++ ["Continuation planning failed: " ++ msg]).length ≤ 5
              rw [List.length_append]
              simp only [List.length_singleton]
              omega
            · show regenerationCount st ≤ 1
              omega
          · intro q hq
            exact hsb q (by simpa [planStep] using hq)
          · show cmeasureSt (planStep (Res.fail msg) st) + phaseOff .generate <
                cmeasureSt st + phaseOff .plan
            rw [cmeasureSt_eq (planStep (Res.fail msg) st) (max st.targetSegments 1)
                  st.currentSegment (st.errors.length + 1) (regenerationCount st)
                  rfl rfl (by simp [planStep]) rfl,
                cmeasureSt_eq st (max st.targetSegments 1) st.currentSegment
                  st.errors.length (regenerationCount st) rfl rfl rfl rfl]
            simp only [phaseOff]
            omega
  case generate =>
      obtain ⟨hg1, hg2⟩ := hg rfl
      rw [cstep_generate] at hw' ⊢
      cases hr : O.narrativeOracle ctr.genCalls with
      | ok v =>
          rw [hr] at hw'
          refine ⟨⟨hw', fun hh => absurd hh (by simp), fun hh => absurd hh (by simp),
                   fun hh => absurd hh (by simp), ?_, fun hh => absurd hh (by simp),
                   ?_⟩, ?_⟩
          · intro _
            constructor
            · intro hh
              exact absurd hh (by simp [generateStep])
            · exact hg2
          · intro q hq
            exact hsb q (by simpa [generateStep] using hq)
          · show cmeasureSt (generateStep (Res.ok v) st) + phaseOff .checkQuality <
                cmeasureSt st + phaseOff .generate
            rw [cmeasureSt_eq (generateStep (Res.ok v) st) (max st.targetSegments 1)
                  st.currentSegment st.errors.length (regenerationCount st)
                  rfl rfl rfl rfl,
                cmeasureSt_eq st (max st.targetSegments 1) st.currentSegment
                  st.errors.length (regenerationCount st) rfl rfl rfl rfl]
            simp only [phaseOff]
            omega
      | fail msg =>
          rw [hr] at hw'
          refine ⟨⟨hw', fun hh => absurd hh (by simp), fun hh => absurd hh (by simp),
                   fun hh => absurd hh (by simp), ?_, fun hh => absurd hh (by simp),
                   ?_⟩, ?_⟩
          · intro _
            constructor
            · intro hh
              have hE5 : st.errors.length ≤ 5 := hg1 (by simpa [generateStep] using hh)
              show (st.errors ++ ["Segment generation failed: " ++ msg]).length ≤ 6
              rw [List.length_append]
              simp only [List.length_singleton]
              omega
            · exact hg2
          · intro q hq
            exact hsb q (by simpa [generateStep] using hq)
          · show cmeasureSt (generateStep (Res.fail msg) st) + phaseOff .checkQuality <
                cmeasureSt st + phaseOff .generate
            rw [cmeasureSt_eq (generateStep (Res.fail msg) st) (max st.targetSegments 1)
                  st.currentSegment (st.errors.length + 1) (regenerationCount st)
                  rfl rfl (by simp [generateStep]) rfl,
                cmeasureSt_eq st (max st.targetSegments 1) st.currentSegment
                  st.errors.length (regenerationCount st) rfl rfl rfl rfl]
            simp only [phaseOff]
            omega
  case checkQuality =>
      obtain ⟨hc1, hc2⟩ := hc rfl
      cases he : st.narrativeSegments.isEmpty with
      | true =>
          have hnar : st.narrativeSegments = [] := List.isEmpty_iff.mp he
          have hE6 : st.errors.length ≤ 6 := hc1 hnar
          have hqcs : st.qualityChecks = [] := by
            by_contra hne
            exact absurd hnar (hw.qcNar hne)
          rw [cstep_checkQuality_empty O st ctr he] at hw' ⊢
          have hroute : qualityRouting
              { st with errors := st.errors ++ ["No segment to check quality for"] }
              = "error" := by
            unfold qualityRouting
            simp [hqcs]
          rw [hroute] at hw' ⊢
          have htgt : qualityTarget "error" = CNode.handleError := by decide
          rw [htgt] at hw' ⊢
          refine ⟨⟨hw', fun hh => absurd hh (by simp), fun hh => absurd hh (by simp),
                   fun hh => absurd hh (by simp), fun hh => absurd hh (by simp),
                   ?_, ?_⟩, ?_⟩
          · intro _
            refine ⟨hqcs, hnar, ?_⟩
            show (st.errors ++ ["No segment to check quality for"]).length ≤ 7
            rw [List.length_append]
            simp only [List.length_singleton]
            omega
          · intro q hq
            exact hsb q hq
          · show cmeasureSt
                { st with errors := st.errors ++ ["No segment to check quality for"] }
                + phaseOff .handleError < cmeasureSt st + phaseOff .checkQuality
            rw [cmeasureSt_eq
                  { st with errors := st.errors ++ ["No segment to check quality for"] }
                  (max st.targetSegments 1) st.currentSegment
                  (st.errors.length + 1) (regenerationCount st) rfl rfl (by simp) rfl,
                cmeasureSt_eq st (max st.targetSegments 1) st.currentSegment
                  st.errors.length (regenerationCount st) rfl rfl rfl rfl]
            simp only [phaseOff]
            omega
      | false =>
          have hnar : st.narrativeSegments ≠ [] := by
            intro hh; rw [hh] at he; simp at he
          obtain ⟨v, hv⟩ := (Res.isOk_iff _).mp (hqa ctr.qaCalls)
          rw [cstep_checkQuality_cons O st ctr he] at hw' ⊢
          rw [hv] at hw' ⊢
          have hreg : regenerationCount (checkQualityStep (Res.ok v) st) =
              regenerationCount st + 1 := by
            unfold regenerationCount checkQualityStep
            simp [List.filter_append]
          have hsb' : ∀ q ∈ (checkQualityStep (Res.ok v) st).qualityChecks,
              q.segmentNumber ≤ (checkQualityStep (Res.ok v) st).currentSegment + 1 := by
            intro q hq
            simp only [checkQualityStep] at hq ⊢
            rcases List.mem_append.mp hq with hq | hq
            · exact hsb q hq
            · simp only [List.mem_singleton] at hq
              subst hq
              exact le_rfl
          rcases qualityNextGuard_cases (checkQualityStep (Res.ok v) st) with
            ⟨hn, hq0⟩ | ⟨q0, hq0, ⟨hn, -⟩ | ⟨hn, -, hguard⟩ | ⟨hn, -, -⟩⟩
          · exfalso
            simp [checkQualityStep] at hq0
          · rw [hn] at hw' ⊢
            refine ⟨⟨hw', fun hh => absurd hh (by simp), fun hh => absurd hh (by simp),
                     fun hh => absurd hh (by simp), fun hh => absurd hh (by simp),
                     fun hh => absurd hh (by simp), hsb'⟩, ?_⟩
            show cmeasureSt (checkQualityStep (Res.ok v) st) + phaseOff .updateWorld <
                cmeasureSt st + phaseOff .checkQuality
            rw [cmeasureSt_eq (checkQualityStep (Res.ok v) st)
                  (max st.targetSegments 1) st.currentSegment
                  st.errors.length (regenerationCount st + 1) rfl rfl rfl hreg,
                cmeasureSt_eq st (max st.targetSegments 1) st.currentSegment
                  st.errors.length (regenerationCount st) rfl rfl rfl rfl]
            simp only [phaseOff]
            omega
          · rw [hn] at hw' ⊢
            refine ⟨⟨hw', fun hh => absurd hh (by simp), fun hh => absurd hh (by simp),
                     ?_, fun hh => absurd hh (by simp), fun hh => absurd hh (by simp),
                     hsb'⟩, ?_⟩
            · intro _
              constructor
              · intro hh
                exact absurd (by simpa [checkQualityStep] using hh) hnar
              · show regenerationCount (checkQualityStep (Res.ok v) st) ≤ 1
                omega
            · show cmeasureSt (checkQualityStep (Res.ok v) st) + phaseOff .generate <
                  cmeasureSt st + phaseOff .checkQuality
              rw [cmeasureSt_eq (checkQualityStep (Res.ok v) st)
                    (max st.targetSegments 1) st.currentSegment
                    st.errors.length (regenerationCount st + 1) rfl rfl rfl hreg,
                  cmeasureSt_eq st (max st.targetSegments 1) st.currentSegment
                    st.errors.length (regenerationCount st) rfl rfl rfl rfl]
              simp only [phaseOff]
              omega
          · rw [hn] at hw' ⊢
            refine ⟨⟨hw', fun hh => absurd hh (by simp), fun hh => absurd hh (by simp),
                     fun hh => absurd hh (by simp), fun hh => absurd hh (by simp),
                     fun hh => absurd hh (by simp), hsb'⟩, ?_⟩
            show cmeasureSt (checkQualityStep (Res.ok v) st) + phaseOff .evaluate <
                cmeasureSt st + phaseOff .checkQuality
            rw [cmeasureSt_eq (checkQualityStep (Res.ok v) st)
                  (max st.targetSegments 1) st.currentSegment
                  st.errors.length (regenerationCount st + 1) rfl rfl rfl hreg,
                cmeasureSt_eq st (max st.targetSegments 1) st.currentSegment
                  st.errors.length (regenerationCount st) rfl rfl rfl rfl]
            simp only [phaseOff]
            omega
  case updateWorld =>
      cases he : st.narrativeSegments.isEmpty with
      | true =>
          rw [cstep_updateWorld_empty O st ctr he] at hw' ⊢
          cases hi : st.imagesEnabled with
          | true =>
              rw [if_pos hi] at hw'
              rw [if_pos rfl]
              refine ⟨⟨hw', fun hh => absurd hh (by simp), fun hh => absurd hh (by simp),
                       fun hh => absurd hh (by simp), fun hh => absurd hh (by simp),
                       fun hh => absurd hh (by simp), hsb⟩, ?_⟩
              show cmeasureSt st + phaseOff .genVisuals <
                  cmeasureSt st + phaseOff .updateWorld
              simp only [phaseOff]
              omega
          | false =>
              rw [if_neg (by rw [hi]; exact Bool.false_ne_true)] at hw'
              rw [if_neg Bool.false_ne_true]
              refine ⟨⟨hw', fun hh => absurd hh (by simp), fun hh => absurd hh (by simp),
                       fun hh => absurd hh (by simp), fun hh => absurd hh (by simp),
                       fun hh => absurd hh (by simp), hsb⟩, ?_⟩
              show cmeasureSt st + phaseOff .evaluate <
                  cmeasureSt st + phaseOff .updateWorld
              simp only [phaseOff]
              omega
      | false =>
          rw [cstep_updateWorld_cons O st ctr he] at hw' ⊢
          cases hr : O.worldOracle ctr.worldCalls with
          | ok v =>
              rw [hr] at hw'
              have hmeq : cmeasureSt (updateWorldStep (Res.ok v) st) = cmeasureSt st := rfl
              have hsb' : ∀ q ∈ (updateWorldStep (Res.ok v) st).qualityChecks,
                  q.segmentNumber ≤ (updateWorldStep (Res.ok v) st).currentSegment + 1 :=
                fun q hq => hsb q hq
              cases hi : st.imagesEnabled with
              | true =>
                  rw [if_pos hi] at hw'
                  rw [if_pos rfl]
                  refine ⟨⟨hw', fun hh => absurd hh (by simp),
                           fun hh => absurd hh (by simp), fun hh => absurd hh (by simp),
                           fun hh => absurd hh (by simp), fun hh => absurd hh (by simp),
                           hsb'⟩, ?_⟩
                  show cmeasureSt (updateWorldStep (Res.ok v) st) + phaseOff .genVisuals <
                      cmeasureSt st + phaseOff .updateWorld
                  rw [hmeq]
                  simp only [phaseOff]
                  omega
              | false =>
                  rw [if_neg (by rw [hi]; exact Bool.false_ne_true)] at hw'
                  rw [if_neg Bool.false_ne_true]
                  refine ⟨⟨hw', fun hh => absurd hh (by simp),
                           fun hh => absurd hh (by simp), fun hh => absurd hh (by simp),
                           fun hh => absurd hh (by simp), fun hh => absurd hh (by simp),
                           hsb'⟩, ?_⟩
                  show cmeasureSt (updateWorldStep (Res.ok v) st) + phaseOff .evaluate <
                      cmeasureSt st + phaseOff .updateWorld
                  rw [hmeq]
                  simp only [phaseOff]
                  omega
          | fail msg =>
              rw [hr] at hw'
              have hmeq : cmeasureSt (updateWorldStep (Res.fail msg) st) =
                  cmeasureSt st := rfl
              have hsb' : ∀ q ∈ (updateWorldStep (Res.fail msg) st).qualityChecks,
                  q.segmentNumber ≤
                    (updateWorldStep (Res.fail msg) st).currentSegment + 1 :=
                fun q hq => hsb q hq
              cases hi : st.imagesEnabled with
              | true =>
                  rw [if_pos hi] at hw'
                  rw [if_pos rfl]
                  refine ⟨⟨hw', fun hh => absurd hh (by simp),
                           fun hh => absurd hh (by simp), fun hh => absurd hh (by simp),
                           fun hh => absurd hh (by simp), fun hh => absurd hh (by simp),
                           hsb'⟩, ?_⟩
                  show cmeasureSt (updateWorldStep (Res.fail msg) st) +
                      phaseOff .genVisuals < cmeasureSt st + phaseOff .updateWorld
                  rw [hmeq]
                  simp only [phaseOff]
                  omega
              | false =>
                  rw [if_neg (by rw [hi]; exact Bool.false_ne_true)] at hw'
                  rw [if_neg Bool.false_ne_true]
                  refine ⟨⟨hw', fun hh => absurd hh (by simp),
                           fun hh => absurd hh (by simp), fun hh => absurd hh (by simp),
                           fun hh => absurd hh (by simp), fun hh => absurd hh (by simp),
                           hsb'⟩, ?_⟩
                  show cmeasureSt (updateWorldStep (Res.fail msg) st) +
                      phaseOff .evaluate < cmeasureSt st + phaseOff .updateWorld
                  rw [hmeq]
                  simp only [phaseOff]
                  omega
  case genVisuals =>
      cases hi : st.imagesEnabled with
      | false =>
          rw [cstep_genVisuals_off O st ctr hi] at hw' ⊢
          refine ⟨⟨hw', fun hh => absurd hh (by simp), fun hh => absurd hh (by simp),
                   fun hh => absurd hh (by simp), fun hh => absurd hh (by simp),
                   fun hh => absurd hh (by simp), hsb⟩, ?_⟩
          show cmeasureSt st + phaseOff .evaluate < cmeasureSt st + phaseOff .genVisuals
          simp only [phaseOff]
          omega
      | true =>
          cases he : st.narrativeSegments.isEmpty with
          | true =>
              rw [cstep_genVisuals_empty O st ctr hi he] at hw' ⊢
              refine ⟨⟨hw', fun hh => absurd hh (by simp), fun hh => absurd hh (by simp),
                       fun hh => absurd hh (by simp), fun hh => absurd hh (by simp),
                       fun hh => absurd hh (by simp), hsb⟩, ?_⟩
              show cmeasureSt st + phaseOff .evaluate <
                  cmeasureSt st + phaseOff .genVisuals
              simp only [phaseOff]
              omega
          | false =>
              rw [cstep_genVisuals_on O st ctr hi he] at hw' ⊢
              cases hr : O.visualOracle ctr.visCalls with
              | ok v =>
                  rw [hr] at hw'
                  refine ⟨⟨hw', fun hh => absurd hh (by simp),
                           fun hh => absurd hh (by simp), fun hh => absurd hh (by simp),
                           fun hh => absurd hh (by simp), fun hh => absurd hh (by simp),
                           fun q hq => hsb q hq⟩, ?_⟩
                  show cmeasureSt (genVisualsStep (Res.ok v) st) + phaseOff .evaluate <
                      cmeasureSt st + phaseOff .genVisuals
                  have hmeq : cmeasureSt (genVisualsStep (Res.ok v) st) =
                      cmeasureSt st := rfl
                  rw [hmeq]
                  simp only [phaseOff]
                  omega
              | fail msg =>
                  rw [hr] at hw'
                  refine ⟨⟨hw', fun hh => absurd hh (by simp),
                           fun hh => absurd hh (by simp), fun hh => absurd hh (by simp),
                           fun hh => absurd hh (by simp), fun hh => absurd hh (by simp),
                           fun q hq => hsb q hq⟩, ?_⟩
                  show cmeasureSt (genVisualsStep (Res.fail msg) st) +
                      phaseOff .evaluate < cmeasureSt st + phaseOff .genVisuals
                  have hmeq : cmeasureSt (genVisualsStep (Res.fail msg) st) =
                      cmeasureSt st := rfl
                  rw [hmeq]
                  simp only [phaseOff]
                  omega
  case evaluate =>
      have hq5 : st.qualityChecks ≠ [] := hw.postQC (Or.inr (Or.inr rfl))
      have hnar : st.narrativeSegments ≠ [] := hw.qcNar hq5
      obtain ⟨l, hl⟩ := Option.isSome_iff_exists.mp (List.getLast?_isSome.mpr hnar)
      obtain ⟨e1, e2, e3, e4, e5, e6, e7, e8, e9, e10, e11, e12⟩ :=
        evaluateStep_spec st l hl
      have hlt : st.currentSegment < max st.targetSegments 1 :=
        hw.phaseLt (Or.inr (Or.inr (Or.inr (Or.inr rfl))))
      have hreg0 : regenerationCount (evaluateStep st) = 0 :=
        regenerationCount_after_evaluate st l hl hsb

      have hsb' : ∀ q ∈ (evaluateStep st).qualityChecks,
          q.segmentNumber ≤ (evaluateStep st).currentSegment + 1 := by
        intro q hq
        rw [e3] at hq
        rw [e1]
        have := hsb q hq
        omega
      rw [cstep_evaluate] at hw' ⊢
      by_cases hsc : (evaluateStep st).shouldContinue = true
      · rw [if_pos hsc] at hw' ⊢
        refine ⟨⟨hw', fun hh => absurd hh (by simp), fun hh => absurd hh (by simp),
                 ?_, fun hh => absurd hh (by simp), fun hh => absurd hh (by simp),
                 hsb'⟩, ?_⟩
        · intro _
          constructor
          · intro hh
            rw [e4] at hh
            exact absurd hh hnar
          · rw [hreg0]
            omega
        · show cmeasureSt (evaluateStep st) + phaseOff .generate <
              cmeasureSt st + phaseOff .evaluate
          rw [cmeasureSt_eq (evaluateStep st) (max st.targetSegments 1)
                (st.currentSegment + 1) st.errors.length 0
                (by rw [e7]) e1 (by rw [e5]) hreg0,
              cmeasureSt_eq st (max st.targetSegments 1) st.currentSegment
                st.errors.length (regenerationCount st) rfl rfl rfl rfl]
          simp only [phaseOff]
          omega
      · rw [if_neg hsc] at hw' ⊢
        refine ⟨⟨hw', fun hh => absurd hh (by simp), fun hh => absurd hh (by simp),
                 fun hh => absurd hh (by simp), fun hh => absurd hh (by simp),
                 fun hh => absurd hh (by simp), hsb'⟩, ?_⟩
        show cmeasureSt (evaluateStep st) + phaseOff .finalize <
            cmeasureSt st + phaseOff .evaluate
        rw [cmeasureSt_eq (evaluateStep st) (max st.targetSegments 1)
              (st.currentSegment + 1) st.errors.length 0
              (by rw [e7]) e1 (by rw [e5]) hreg0,
            cmeasureSt_eq st (max st.targetSegments 1) st.currentSegment
              st.errors.length (regenerationCount st) rfl rfl rfl rfl]
        simp only [phaseOff]
        omega
  case finalize =>
      rw [cstep_finalize] at hw' ⊢
      cases hr : O.contextOracle ctr.ctxCalls with
      | ok v =>
          rw [hr] at hw'
          refine ⟨⟨hw', fun hh => absurd hh (by simp), fun hh => absurd hh (by simp),
                   fun hh => absurd hh (by simp), fun hh => absurd hh (by simp),
                   fun hh => absurd hh (by simp), fun q hq => hsb q hq⟩, ?_⟩
          show cmeasureSt (finalizeStep (Res.ok v) st) + phaseOff .done <
              cmeasureSt st + phaseOff .finalize
          have hmeq : cmeasureSt (finalizeStep (Res.ok v) st) = cmeasureSt st := rfl
          rw [hmeq]
          simp only [phaseOff]
          omega
      | fail msg =>
          rw [hr] at hw'
          refine ⟨⟨hw', fun hh => absurd hh (by simp), fun hh => absurd hh (by simp),
                   fun hh => absurd hh (by simp), fun hh => absurd hh (by simp),
                   fun hh => absurd hh (by simp), fun q hq => hsb q hq⟩, ?_⟩
          show cmeasureSt (finalizeStep (Res.fail msg) st) + phaseOff .done <
              cmeasureSt st + phaseOff .finalize
          have hmeq : cmeasureSt (finalizeStep (Res.fail msg) st) = cmeasureSt st := rfl
          rw [hmeq]
          simp only [phaseOff]
          omega
  case handleError =>
      obtain ⟨he1, he2, he3⟩ := herr rfl
      have hreg0 : regenerationCount st = 0 := by
        unfold regenerationCount
        rw [he1]
        rfl
      rw [cstep_handleError] at hw' ⊢
      rcases errorNext_cases (handleErrorStep st) with
        ⟨hb, hn⟩ | ⟨hb, hcne, hn⟩ | ⟨hb, hcemp, hn⟩ <;> rw [hn] at hw' ⊢
      · refine ⟨⟨hw', fun hh => absurd hh (by simp), fun hh => absurd hh (by simp),
                 fun hh => absurd hh (by simp), fun hh => absurd hh (by simp),
                 fun hh => absurd hh (by simp), hsb⟩, ?_⟩
        show cmeasureSt (handleErrorStep st) + phaseOff .done <
            cmeasureSt st + phaseOff .handleError
        have hmeq : cmeasureSt (handleErrorStep st) = cmeasureSt st := rfl
        rw [hmeq]
        simp only [phaseOff]
        omega
      · refine ⟨⟨hw', fun hh => absurd hh (by simp), fun hh => absurd hh (by simp),
                 fun hh => absurd hh (by simp), fun hh => absurd hh (by simp),
                 fun hh => absurd hh (by simp), hsb⟩, ?_⟩
        show cmeasureSt (handleErrorStep st) + phaseOff .finalize <
            cmeasureSt st + phaseOff .handleError
        have hmeq : cmeasureSt (handleErrorStep st) = cmeasureSt st := rfl
        rw [hmeq]
        simp only [phaseOff]
        omega
      · have hb' : st.errors.length ≤ 5 := by
          have : ¬ 5 < st.errors.length := hb
          omega
        refine ⟨⟨hw', fun hh => absurd hh (by simp), fun hh => absurd hh (by simp),
                 ?_, fun hh => absurd hh (by simp), fun hh => absurd hh (by simp),
                 hsb⟩, ?_⟩
        · intro _
          refine ⟨fun _ => hb', ?_⟩
          show regenerationCount (handleErrorStep st) ≤ 1
          have hqc : (handleErrorStep st).qualityChecks = [] := he1
          unfold regenerationCount
          rw [hqc]
          simp
        · show cmeasureSt (handleErrorStep st) + phaseOff .generate <
              cmeasureSt st + phaseOff .handleError
          have hmeq : cmeasureSt (handleErrorStep st) = cmeasureSt st := rfl
          rw [hmeq]
          simp only [phaseOff]
          omega
  case done => exact absurd rfl hd

/-- Only the END node carries phase offset zero. -/
theorem phaseOff_eq_zero (n : CNode) (h : phaseOff n = 0) : n = .done := by
  cases n <;> first | rfl | simp [phaseOff] at h

theorem crun_shift (O : COracles) (c : CConfig) (n : ℕ) :
    crun O c (n + 1) = crun O (cstep O c) n := by
  induction n with
  | zero => rfl
  | succ n ih =>
      show cstep O (crun O c (n + 1)) = cstep O (crun O (cstep O c) n)
      rw [ih]

/-- Once the strengthened invariant holds, the machine reaches END within
`cmeasure` further steps. -/
theorem invS_terminates (O : COracles) (hqa : ∀ n, (O.qaOracle n).isOk = true) :
    ∀ (n : ℕ) (c : CConfig), InvS c → cmeasure c ≤ n →
      (crun O c n).node = .done := by
  intro n
  induction n with
  | zero =>
      intro c h hm
      have hz : phaseOff c.node = 0 := by
        unfold cmeasure at hm
        omega
      exact phaseOff_eq_zero _ hz
  | succ n ih =>
      intro c h hm
      by_cases hd : c.node = .done
      · have hstay := crun_of_done O c 0 hd (n + 1)
        rw [Nat.zero_add] at hstay
        rw [hstay]
        exact hd
      · obtain ⟨h', hlt⟩ := invS_cstep O c hqa h hd
        rw [crun_shift]
        exact ih (cstep O c) h' (by omega)

/-- The ranking function's initial value. -/
theorem cmeasure_cinit (prev mode : String) (target : ℕ) (images : Bool) :
    cmeasure (cinit prev mode target images) = 32 * max target 1 + 88 := by
  unfold cmeasure cinit cmeasureSt phaseOff initContState regenerationCount
  simp

/-- C2 (amended): the spec's bound of `target_count + 5` router decisions for
arbitrary provider outcomes is false (see the counterexample below, where a
permanently failing quality provider drives the generate → check_quality →
handle_error loop forever without growing the error list). What does hold is
termination under a responsive quality provider: whenever every QA call
returns a response, the continuation graph reaches END within
`32 * max target_segments 1 + 88` graph steps, for every target and every
behaviour of the other providers. -/
theorem segment_loop_termination_amended (O : COracles) (prev mode : String)
    (target : ℕ) (images : Bool)
    (hqa : ∀ n, (O.qaOracle n).isOk = true) :
    (crun O (cinit prev mode target images)
        (32 * max target 1 + 88)).node = .done :=
  invS_terminates O hqa _ _ (invS_init prev mode target images)
    (le_of_eq (cmeasure_cinit prev mode target images))

/-- C2 counterexample: with `target_segments = 1` and a quality provider whose
calls all fail, the loop is nowhere near `finalizing` or END after 40 steps,
and it has already consumed 25 > 1 + 5 router decisions. -/
theorem segment_loop_bound_refuted :
    (∀ k ∈ List.range 41,
        (crun qaFailC (cinit "p" "auto" 1 false) k).node ≠ .finalize ∧
        (crun qaFailC (cinit "p" "auto" 1 false) k).node ≠ .done) ∧
    1 + 5 < routerDecisions qaFailC (cinit "p" "auto" 1 false) 40 := by
  decide

theorem segment_loop_termination_amended_witness :
    (∀ n, (allOkC.qaOracle n).isOk = true) ∧
    (crun allOkC (cinit "p" "auto" 2 false)
        (32 * max 2 1 + 88)).node = .done :=
  ⟨fun _ => rfl,
    segment_loop_termination_amended allOkC "p" "auto" 2 false (fun _ => rfl)⟩

/-! ## C6 — accounting of completed segments -/

/-- Nodes of the segment phase downstream of a generation. -/
def chainNode (n : CNode) : Prop :=
  n = .checkQuality ∨ n = .updateWorld ∨ n = .genVisuals ∨ n = .evaluate

/-- Invariant maintained when every segment-generation call succeeds: the
completed segments carry strictly increasing segment numbers bounded by
the segment counter, and downstream of a generation the latest narrative
segment is stamped `current_segment + 1`. -/
structure InvD (c : CConfig) : Prop where
  pw : (c.st.completedSegments.map Segment.segmentNumber).Pairwise (· < ·)
  bound : ∀ s ∈ c.st.completedSegments, s.segmentNumber ≤ c.st.currentSegment
  phase : chainNode c.node → ∃ l, c.st.narrativeSegments.getLast? = some l ∧
            l.segmentNumber = c.st.currentSegment + 1

theorem invD_init (prev mode : String) (target : ℕ) (images : Bool) :
    InvD (cinit prev mode target images) := by
  refine ⟨?_, ?_, ?_⟩ <;> simp [cinit, initContState, chainNode]

theorem invD_cstep (O : COracles) (c : CConfig)
    (hgen : ∀ n, (O.narrativeOracle n).isOk = true) (h : InvD c) :
    InvD (cstep O c) := by
  obtain ⟨h1, h2, h3⟩ := h
  rcases c with ⟨n, st, ctr⟩
  simp only at h1 h2 h3
  cases n
  case analyze =>
      rw [cstep_analyze]
      cases hr : O.contextOracle ctr.ctxCalls <;>
        exact ⟨h1, h2, fun hc => by simp [chainNode] at hc⟩
  case plan =>
      rw [cstep_plan]
      cases hr : O.plannerOracle ctr.planCalls <;>
        exact ⟨h1, h2, fun hc => by simp [chainNode] at hc⟩
  case generate =>
      rw [cstep_generate]
      obtain ⟨v, hv⟩ := (Res.isOk_iff _).mp (hgen ctr.genCalls)
      rw [hv]
      refine ⟨h1, h2, fun _ => ?_⟩
      exact ⟨⟨st.currentSegment + 1, v.1, v.2⟩,
        by simp [generateStep, List.getLast?_concat], rfl⟩
  case checkQuality =>
      have hphase := h3 (Or.inl rfl)
      cases he : st.narrativeSegments.isEmpty with
      | true =>
          rw [cstep_checkQuality_empty O st ctr he]
          refine ⟨h1, h2, fun _ => ?_⟩
          exact hphase
      | false =>
          rw [cstep_checkQuality_cons O st ctr he]
          cases hr : O.qaOracle ctr.qaCalls with
          | ok v =>
              refine ⟨h1, h2, fun _ => ?_⟩
              simpa [checkQualityStep] using hphase
          | fail msg =>
              refine ⟨h1, h2, fun _ => ?_⟩
              simpa [checkQualityStep] using hphase
  case updateWorld =>
      have hphase := h3 (Or.inr (Or.inl rfl))
      cases he : st.narrativeSegments.isEmpty with
      | true =>
          rw [cstep_updateWorld_empty O st ctr he]
          refine ⟨h1, h2, fun _ => hphase⟩
      | false =>
          rw [cstep_updateWorld_cons O st ctr he]
          cases hr : O.worldOracle ctr.worldCalls <;>
            exact ⟨h1, h2, fun _ => by simpa [updateWorldStep] using hphase⟩
  case genVisuals =>
      have hphase := h3 (Or.inr (Or.inr (Or.inl rfl)))
      cases hi : st.imagesEnabled with
      | false =>
          rw [cstep_genVisuals_off O st ctr hi]
          exact ⟨h1, h2, fun _ => hphase⟩
      | true =>
          cases he : st.narrativeSegments.isEmpty with
          | true =>
              rw [cstep_genVisuals_empty O st ctr hi he]
              exact ⟨h1, h2, fun _ => hphase⟩
          | false =>
              rw [cstep_genVisuals_on O st ctr hi he]
              cases hr : O.visualOracle ctr.visCalls <;>
                exact ⟨h1, h2, fun _ => by simpa [genVisualsStep] using hphase⟩
  case evaluate =>
      obtain ⟨l, hl, hseg⟩ := h3 (Or.inr (Or.inr (Or.inr rfl)))
      obtain ⟨e1, e2, e3, e4, _⟩ := evaluateStep_spec st l hl
      rw [cstep_evaluate]
      have hpw : ((evaluateStep st).completedSegments.map
          Segment.segmentNumber).Pairwise (· < ·) := by
        rw [e2, List.map_append]
        rw [List.pairwise_append]
        refine ⟨h1, by simp, ?_⟩
        intro a ha b hb
        simp only [List.map_cons, List.map_nil, List.mem_singleton] at hb
        subst hb
        obtain ⟨s0, hs0, rfl⟩ := List.mem_map.mp ha
        have := h2 s0 hs0
        omega
      have hbound : ∀ s ∈ (evaluateStep st).completedSegments,
          s.segmentNumber ≤ (evaluateStep st).currentSegment := by
        rw [e1, e2]
        intro s hs
        rcases List.mem_append.mp hs with hs | hs
        · have := h2 s hs; omega
        · simp only [List.mem_singleton] at hs; subst hs; omega
      split <;> exact ⟨hpw, hbound, fun hc => by simp [chainNode] at hc⟩
  case finalize =>
      rw [cstep_finalize]
      cases hr : O.contextOracle ctr.ctxCalls <;>
        exact ⟨h1, h2, fun hc => by simp [chainNode] at hc⟩
  case handleError =>
      rw [cstep_handleError]
      rcases errorNext_cases (handleErrorStep st) with
        ⟨_, hn⟩ | ⟨_, _, hn⟩ | ⟨_, _, hn⟩ <;> rw [hn] <;>
        exact ⟨h1, h2, fun hc => by simp [chainNode] at hc⟩
  case done =>
      rw [cstep_of_done O _ rfl]
      exact ⟨h1, h2, h3⟩

theorem invD_crun (O : COracles) (prev mode : String) (target : ℕ) (images : Bool)
    (hgen : ∀ n, (O.narrativeOracle n).isOk = true) (k : ℕ) :
    InvD (crun O (cinit prev mode target images) k) := by
  induction k with
  | zero => exact invD_init prev mode target images
  | succ k ih => exact invD_cstep O _ hgen ih

/-- C6 (amended): one entry is appended to `completed_segments` per
evaluation step and none elsewhere, so its length equals the number of
evaluations; and when every segment-generation call succeeds the stored
segments carry strictly increasing segment numbers, hence no segment
result appears twice.  (When a generation call fails, the previous
segment can be re-checked and appended a second time.) -/
theorem completed_accounting_amended (O : COracles) (prev mode : String)
    (target : ℕ) (images : Bool)
    (hgen : ∀ n, (O.narrativeOracle n).isOk = true) (k : ℕ) :
    ((crun O (cinit prev mode target images) k).st.completedSegments.map
        Segment.segmentNumber).Pairwise (· < ·) ∧
    (crun O (cinit prev mode target images) k).st.completedSegments.Nodup ∧
    (crun O (cinit prev mode target images) (k + 1)).st.completedSegments.length =
      (crun O (cinit prev mode target images) k).st.completedSegments.length +
        (if (crun O (cinit prev mode target images) k).node = .evaluate then 1
         else 0) := by
  have hpw := (invD_crun O prev mode target images hgen k).pw
  refine ⟨hpw, ?_, cstep_completed_length O _ (invW_crun O prev mode target images k)⟩
  exact List.Nodup.of_map _ (hpw.imp ne_of_lt)

/-- C6 counterexample (original claim): the first generation succeeds and
every later one fails; after the failure the previous segment is
re-checked (passing again) and appended a second time — the final chapter
contains segment 1 twice. -/
theorem completed_segments_duplicate :
    (crun genFailAfterFirstC (cinit "p" "seamless" 2 false) 11).node = .done ∧
    (crun genFailAfterFirstC (cinit "p" "seamless" 2 false) 11).st.completedSegments =
      [⟨1, "first", 10⟩, ⟨1, "first", 10⟩] ∧
    ¬ (crun genFailAfterFirstC
        (cinit "p" "seamless" 2 false) 11).st.completedSegments.Nodup := by
  decide

theorem completed_accounting_amended_witness :
    (∀ n, (allOkC.narrativeOracle n).isOk = true) ∧
    (((crun allOkC (cinit "p" "seamless" 2 false) 11).st.completedSegments.map
        Segment.segmentNumber).Pairwise (· < ·) ∧
     (crun allOkC (cinit "p" "seamless" 2 false) 11).st.completedSegments.Nodup ∧
     (crun allOkC (cinit "p" "seamless" 2 false) (11 + 1)).st.completedSegments.length =
       (crun allOkC (cinit "p" "seamless" 2 false) 11).st.completedSegments.length +
         (if (crun allOkC (cinit "p" "seamless" 2 false) 11).node = .evaluate then 1
          else 0)) :=
  ⟨fun _ => rfl,
   completed_accounting_amended allOkC "p" "seamless" 2 false (fun _ => rfl) 11⟩

/-! ## C4 — segment-counter progress -/

/-- C4 (amended): `current_segment` starts at 0, changes only at the
evaluation step — where it increases by exactly 1 and exactly one segment
is appended to `completed_segments` — and along every run it stays at or
below `max target_segments 1`.  (The claim's bound `target_segments`
itself fails at `target_segments = 0`, where one segment is still
generated and accepted.) -/
theorem segment_counter_progress_amended (O : COracles) (prev mode : String)
    (target : ℕ) (images : Bool) (k : ℕ) :
    (cinit prev mode target images).st.currentSegment = 0 ∧
    (crun O (cinit prev mode target images) (k + 1)).st.currentSegment =
      (crun O (cinit prev mode target images) k).st.currentSegment +
        (if (crun O (cinit prev mode target images) k).node = .evaluate then 1 else 0) ∧
    (crun O (cinit prev mode target images) (k + 1)).st.completedSegments.length =
      (crun O (cinit prev mode target images) k).st.completedSegments.length +
        (if (crun O (cinit prev mode target images) k).node = .evaluate then 1 else 0) ∧
    (crun O (cinit prev mode target images) k).st.currentSegment ≤ max target 1 := by
  refine ⟨rfl, cstep_currentSegment O _,
    cstep_completed_length O _ (invW_crun O prev mode target images k), ?_⟩
  have h := (invW_crun O prev mode target images k).csLe
  rw [(crun_const O (cinit prev mode target images) k).1] at h
  exact h

/-- C4 counterexample: with `target_segments = 0` and every provider
succeeding, the loop ends normally (`chapter_complete` set, content
finalized, no errors), yet `current_segment` finishes at `1 > 0`: the
graph unconditionally generates a first segment before the continuation
router ever consults the target. -/
theorem segment_counter_bound_refuted :
    (crun allOkC (cinit "p" "seamless" 0 false) 7).node = .done ∧
    (crun allOkC (cinit "p" "seamless" 0 false) 7).st.chapterComplete = true ∧
    (crun allOkC (cinit "p" "seamless" 0 false) 7).st.errors = [] ∧
    (crun allOkC (cinit "p" "seamless" 0 false) 7).st.finalChapterContent.isSome = true ∧
    (crun allOkC (cinit "p" "seamless" 0 false) 7).st.currentSegment = 1 := by
  decide

end StoryAssistant
